import Mathlib

/-!
Verification of the Lion-Launcher loader-installation and launch-assembly engine.

This file gives a shallow embedding, in Lean 4, of the pure core of the
launcher's Rust source: library classification (`src/core/minecraft/forge.rs`),
classpath deduplication and launch assembly (`src/core/minecraft/mod.rs`),
the hash-verified download retry loop (`src/core/download/mod.rs`),
NeoForge version matching (`src/api/neoforge.rs`), version comparison
(`src/api/forge.rs`, `src/api/forge_compat.rs`) and Maven-coordinate path
derivation, and proves or refutes the specified properties of these
functions.

Rust `&str` values are modelled as their character lists (`RStr`); Rust's
`str::split`, `str::trim`, `Path::file_name`, `u32::from_str` and friends are
re-implemented on `RStr` with the same semantics (whitespace is modelled by
`Char.isWhitespace`, which agrees with Rust on the ASCII whitespace occurring
in the inputs at hand).
-/

/-- A Rust string slice, modelled as its list of characters. -/
abbrev RStr := List Char

/-- Shorthand turning a Lean string literal into its `RStr` model. -/
def rs (s : String) : RStr := s.data

/-- Rust `str::contains(pat)`: `pat` occurs as a contiguous substring of `s`. -/
def strContains (s pat : RStr) : Bool :=
  if List.isPrefixOf pat s then true
  else
    match s with
    | [] => false
    | _ :: t => strContains t pat

/-- Rust `str::split(c)`: split at every occurrence of `c`, keeping empty
pieces (`"".split(c)` yields one empty piece). -/
def splitOnChar (c : Char) : RStr → List RStr
  | [] => [[]]
  | x :: xs =>
    if x = c then [] :: splitOnChar c xs
    else
      match splitOnChar c xs with
      | [] => [[x]]
      | h :: t => (x :: h) :: t

/-- Inverse of `splitOnChar`: join pieces with the separator `c`
(Rust `Vec::join` / `format!` with `:` separators). -/
def intercalateChar (c : Char) : List RStr → RStr
  | [] => []
  | [x] => x
  | x :: xs => x ++ c :: intercalateChar c xs

/-- Rust `str::trim`: strip leading and trailing whitespace
(`List.rdropWhile` drops from the right). -/
def trimStr (s : RStr) : RStr :=
  (s.dropWhile Char.isWhitespace).rdropWhile Char.isWhitespace

/-- Rust `std::path::Path::file_name` on a Unix path: the last normal
component, or `None` for an empty path, a root path, or a path ending in
`..` (current-directory components `.` and empty components are skipped). -/
def fileName (s : RStr) : Option RStr :=
  match ((splitOnChar '/' s).filter fun comp => comp ≠ [] ∧ comp ≠ rs ".").getLast? with
  | none => none
  | some comp => if comp = rs ".." then none else some comp

/-- Mathematical value of a digit string (most significant digit first). -/
def digitsVal (s : RStr) : Nat :=
  s.foldl (fun acc c => acc * 10 + (c.toNat - '0'.toNat)) 0

/-- Rust `u32::from_str` (`"…".parse::<u32>()`): an optional leading `+`,
then one or more ASCII digits, and the value must fit in 32 bits. -/
def parseU32 (s : RStr) : Option Nat :=
  let digits := if s.head? = some '+' then s.tail else s
  if digits ≠ [] ∧ digits.all Char.isDigit ∧ digitsVal digits < 2 ^ 32 then
    some (digitsVal digits)
  else
    none

/-- Rust `str::to_lowercase`, restricted to the ASCII case mapping (the
inputs compared in the code are hexadecimal hash strings). -/
def toLowerStr (s : RStr) : RStr := s.map Char.toLower

/-! ## Basic facts about the string model -/

theorem splitOnChar_nil (c : Char) : splitOnChar c [] = [[]] := rfl

theorem splitOnChar_cons_self (c : Char) (xs : RStr) :
    splitOnChar c (c :: xs) = [] :: splitOnChar c xs := by
  simp [splitOnChar]

theorem splitOnChar_ne_nil (c : Char) (s : RStr) : splitOnChar c s ≠ [] := by
  induction s with
  | nil => simp [splitOnChar]
  | cons x xs ih =>
    simp only [splitOnChar]
    split
    · simp
    · split <;> simp

theorem splitOnChar_cons_ne {c x : Char} (xs : RStr) (h : x ≠ c)
    {rh : RStr} {rt : List RStr} (hr : splitOnChar c xs = rh :: rt) :
    splitOnChar c (x :: xs) = (x :: rh) :: rt := by
  simp only [splitOnChar, if_neg h, hr]

theorem splitOnChar_no_sep (c : Char) (s : RStr) :
    ∀ p ∈ splitOnChar c s, c ∉ p := by
  induction s with
  | nil => intro p hp; simp [splitOnChar] at hp; simp [hp]
  | cons x xs ih =>
    intro p hp
    by_cases hx : x = c
    · rw [hx, splitOnChar_cons_self] at hp
      rw [List.mem_cons] at hp
      rcases hp with rfl | hp
      · simp
      · exact ih p hp
    · cases hr : splitOnChar c xs with
      | nil => exact absurd hr (splitOnChar_ne_nil c xs)
      | cons rh rt =>
        rw [splitOnChar_cons_ne xs hx hr] at hp
        rw [List.mem_cons] at hp
        rcases hp with rfl | hp
        · intro hc
          rw [List.mem_cons] at hc
          rcases hc with hc | hc
          · exact hx hc.symm
          · exact ih rh (by simp [hr]) hc
        · exact ih p (by rw [hr]; exact List.mem_cons_of_mem _ hp)

theorem splitOnChar_of_not_mem {c : Char} {s : RStr} (h : c ∉ s) :
    splitOnChar c s = [s] := by
  induction s with
  | nil => rfl
  | cons x xs ih =>
    simp only [List.mem_cons, not_or] at h
    rw [splitOnChar_cons_ne xs (fun hxc => h.1 hxc.symm) (ih h.2)]

theorem splitOnChar_append_cons {c : Char} {s : RStr} (t : RStr) (h : c ∉ s) :
    splitOnChar c (s ++ c :: t) = s :: splitOnChar c t := by
  induction s with
  | nil => simpa using splitOnChar_cons_self c t
  | cons x xs ih =>
    simp only [List.mem_cons, not_or] at h
    rw [List.cons_append, splitOnChar_cons_ne _ (fun hxc => h.1 hxc.symm) (ih h.2)]

theorem two_le_length_splitOnChar_append_cons (c : Char) (s t : RStr) :
    2 ≤ (splitOnChar c (s ++ c :: t)).length := by
  induction s with
  | nil =>
    rw [List.nil_append, splitOnChar_cons_self]
    cases hr : splitOnChar c t with
    | nil => exact absurd hr (splitOnChar_ne_nil c t)
    | cons a l => simp
  | cons x xs ih =>
    by_cases hx : x = c
    · rw [List.cons_append, hx, splitOnChar_cons_self]
      cases hr : splitOnChar c (xs ++ c :: t) with
      | nil => exact absurd hr (splitOnChar_ne_nil _ _)
      | cons a l => simp
    · cases hr : splitOnChar c (xs ++ c :: t) with
      | nil => exact absurd hr (splitOnChar_ne_nil _ _)
      | cons rh rt =>
        rw [List.cons_append, splitOnChar_cons_ne _ hx hr]
        rw [hr] at ih
        simpa using ih

theorem splitOnChar_getLast?_append_cons (c : Char) (s t : RStr) :
    (splitOnChar c (s ++ c :: t)).getLast? = (splitOnChar c t).getLast? := by
  induction s with
  | nil =>
    rw [List.nil_append, splitOnChar_cons_self]
    cases hr : splitOnChar c t with
    | nil => exact absurd hr (splitOnChar_ne_nil c t)
    | cons a l => simp
  | cons x xs ih =>
    by_cases hx : x = c
    · rw [List.cons_append, hx, splitOnChar_cons_self]
      cases hr : splitOnChar c (xs ++ c :: t) with
      | nil => exact absurd hr (splitOnChar_ne_nil _ _)
      | cons rh rt =>
        rw [hr] at ih
        simpa using ih
    · cases hr : splitOnChar c (xs ++ c :: t) with
      | nil => exact absurd hr (splitOnChar_ne_nil _ _)
      | cons rh rt =>
        rw [List.cons_append, splitOnChar_cons_ne _ hx hr]
        rw [hr] at ih
        have h2 := two_le_length_splitOnChar_append_cons c xs t
        rw [hr] at h2
        cases rt with
        | nil => simp at h2
        | cons a l => simpa using ih

theorem intercalateChar_cons (c : Char) (x : RStr) {xs : List RStr} (h : xs ≠ []) :
    intercalateChar c (x :: xs) = x ++ c :: intercalateChar c xs := by
  cases xs with
  | nil => exact absurd rfl h
  | cons y ys => rfl

theorem splitOnChar_intercalateChar {c : Char} {l : List RStr}
    (hne : l ≠ []) (h : ∀ p ∈ l, c ∉ p) :
    splitOnChar c (intercalateChar c l) = l := by
  induction l with
  | nil => exact absurd rfl hne
  | cons x xs ih =>
    cases xs with
    | nil => exact splitOnChar_of_not_mem (h x (by simp))
    | cons y ys =>
      rw [intercalateChar_cons c x (by simp)]
      rw [splitOnChar_append_cons _ (h x (by simp))]
      rw [ih (by simp) (fun p hp => h p (by simp [hp]))]

theorem dropWhile_cons_head_false (p : Char → Bool) (s : RStr) :
    ∀ a r, s.dropWhile p = a :: r → p a = false := by
  induction s with
  | nil => intro a r h; simp [List.dropWhile] at h
  | cons x xs ih =>
    intro a r h
    rw [List.dropWhile_cons] at h
    split at h
    · exact ih a r h
    · rcases h with ⟨rfl, rfl⟩
      rename_i hpx
      simpa using hpx

theorem trimStr_sublist (s : RStr) : (trimStr s).Sublist s :=
  ((List.rdropWhile_prefix _ _).sublist).trans
    ((List.dropWhile_suffix _).sublist)

theorem trimStr_idem (s : RStr) : trimStr (trimStr s) = trimStr s := by
  unfold trimStr
  have h1 : ((s.dropWhile Char.isWhitespace).rdropWhile
        Char.isWhitespace).dropWhile Char.isWhitespace =
      (s.dropWhile Char.isWhitespace).rdropWhile Char.isWhitespace := by
    cases hc : (s.dropWhile Char.isWhitespace).rdropWhile Char.isWhitespace with
    | nil => rfl
    | cons a l' =>
      obtain ⟨u, hu⟩ :=
        List.rdropWhile_prefix Char.isWhitespace (s.dropWhile Char.isWhitespace)
      rw [hc] at hu
      have : s.dropWhile Char.isWhitespace = a :: (l' ++ u) := by
        rw [← hu]; rfl
      rw [List.dropWhile_cons, if_neg (by
        simp [dropWhile_cons_head_false Char.isWhitespace s a (l' ++ u) this])]
  rw [h1, List.rdropWhile_idempotent]

theorem not_mem_trimStr {a : Char} {s : RStr} (h : a ∉ s) : a ∉ trimStr s :=
  fun hm => h ((trimStr_sublist s).subset hm)

/-! ## Maven-coordinate path derivation

Two revisions exist in the source: `MinecraftLauncher::maven_to_path`
(`src/core/minecraft/mod.rs` lines 1726–1737), which appends a fourth
coordinate part as `-classifier`, and `ForgeInstaller::maven_to_path`
(`src/core/minecraft/forge.rs` lines 678–689), which ignores any fourth
part.  Both return the input unchanged when fewer than three
colon-separated parts are present. -/

namespace MinecraftLauncher

/-- Embedding of `MinecraftLauncher::maven_to_path` (mod.rs lines 1726–1737). -/
def maven_to_path (maven : RStr) : RStr :=
  let parts := splitOnChar ':' maven
  if 3 ≤ parts.length then
    let group := (parts.getD 0 []).map fun ch => if ch = '.' then '/' else ch
    let artifact := parts.getD 1 []
    let version := parts.getD 2 []
    let classifier := if 3 < parts.length then '-' :: parts.getD 3 [] else []
    group ++ '/' :: artifact ++ '/' :: version ++ '/' :: artifact ++ '-' :: version ++
      classifier ++ rs ".jar"
  else maven

end MinecraftLauncher

namespace ForgeInstaller

/-- Embedding of `ForgeInstaller::maven_to_path` (forge.rs lines 678–689): no classifier
handling; fewer than three parts returns the input unchanged. -/
def maven_to_path (maven : RStr) : RStr :=
  let parts := splitOnChar ':' maven
  if parts.length < 3 then maven
  else
    let group := (parts.getD 0 []).map fun ch => if ch = '.' then '/' else ch
    let artifact := parts.getD 1 []
    let version := parts.getD 2 []
    group ++ '/' :: artifact ++ '/' :: version ++ '/' :: artifact ++ '-' :: version ++ rs ".jar"

end ForgeInstaller

/-- The common `group/artifact/version/artifact-version.jar` layout both
revisions produce for a three-part coordinate. -/
def mavenPathStem (g a v : RStr) : RStr :=
  (g.map fun ch => if ch = '.' then '/' else ch) ++
    '/' :: a ++ '/' :: v ++ '/' :: a ++ '-' :: v

/-- Claim C10: Maven-coordinate-to-path conversion is total and never fails:
with fewer than three colon-separated parts both revisions return the input
unchanged; a three-part coordinate `g:a:v` maps to
`g-with-dots-as-slashes/a/v/a-v.jar` in both revisions; and for a
four-part coordinate `g:a:v:c` the `MinecraftLauncher` revision appends
`-c` before `.jar` while the `ForgeInstaller` revision ignores the fourth
part (and everything after it). -/
theorem C10_maven_to_path_total :
    (∀ maven : RStr, (splitOnChar ':' maven).length < 3 →
       MinecraftLauncher.maven_to_path maven = maven ∧
       ForgeInstaller.maven_to_path maven = maven) ∧
    (∀ g a v : RStr, ':' ∉ g → ':' ∉ a → ':' ∉ v →
       MinecraftLauncher.maven_to_path (g ++ ':' :: (a ++ ':' :: v)) =
         mavenPathStem g a v ++ rs ".jar" ∧
       ForgeInstaller.maven_to_path (g ++ ':' :: (a ++ ':' :: v)) =
         mavenPathStem g a v ++ rs ".jar") ∧
    (∀ g a v c : RStr, ':' ∉ g → ':' ∉ a → ':' ∉ v → ':' ∉ c →
       MinecraftLauncher.maven_to_path (g ++ ':' :: (a ++ ':' :: (v ++ ':' :: c))) =
         mavenPathStem g a v ++ '-' :: c ++ rs ".jar") ∧
    (∀ g a v rest : RStr, ':' ∉ g → ':' ∉ a → ':' ∉ v →
       ForgeInstaller.maven_to_path (g ++ ':' :: (a ++ ':' :: (v ++ ':' :: rest))) =
         mavenPathStem g a v ++ rs ".jar") := by
  have hsplit3 : ∀ g a v : RStr, ':' ∉ g → ':' ∉ a → ':' ∉ v →
      splitOnChar ':' (g ++ ':' :: (a ++ ':' :: v)) = [g, a, v] := by
    intro g a v hg ha hv
    rw [splitOnChar_append_cons (a ++ ':' :: v) hg, splitOnChar_append_cons v ha,
      splitOnChar_of_not_mem hv]
  have hsplit4 : ∀ g a v rest : RStr, ':' ∉ g → ':' ∉ a → ':' ∉ v →
      splitOnChar ':' (g ++ ':' :: (a ++ ':' :: (v ++ ':' :: rest))) =
        g :: a :: v :: splitOnChar ':' rest := by
    intro g a v rest hg ha hv
    rw [splitOnChar_append_cons (a ++ ':' :: (v ++ ':' :: rest)) hg,
      splitOnChar_append_cons (v ++ ':' :: rest) ha, splitOnChar_append_cons rest hv]
  refine ⟨?_, ?_, ?_, ?_⟩
  · intro maven h
    constructor
    · simp only [MinecraftLauncher.maven_to_path]
      rw [if_neg (show ¬ 3 ≤ (splitOnChar ':' maven).length by omega)]
    · simp only [ForgeInstaller.maven_to_path]
      rw [if_pos h]
  · intro g a v hg ha hv
    constructor
    · simp only [MinecraftLauncher.maven_to_path, hsplit3 g a v hg ha hv]
      simp [mavenPathStem, List.getD]
    · simp only [ForgeInstaller.maven_to_path, hsplit3 g a v hg ha hv]
      simp [mavenPathStem, List.getD]
  · intro g a v c hg ha hv hc
    simp only [MinecraftLauncher.maven_to_path, hsplit4 g a v c hg ha hv,
      splitOnChar_of_not_mem hc]
    simp [mavenPathStem, List.getD]
  · intro g a v rest hg ha hv
    simp only [ForgeInstaller.maven_to_path, hsplit4 g a v rest hg ha hv]
    rw [if_neg (show ¬ (g :: a :: v :: splitOnChar ':' rest).length < 3 by simp)]
    simp [mavenPathStem, List.getD]

/-- Witness for `C10_maven_to_path_total`: all three hypothesis groups
discharged at concrete coordinates. -/
theorem C10_witness :
    MinecraftLauncher.maven_to_path (rs "a:b") = rs "a:b" ∧
    MinecraftLauncher.maven_to_path (rs "com.example:artifact:1.0") =
      rs "com/example/artifact/1.0/artifact-1.0.jar" ∧
    ForgeInstaller.maven_to_path (rs "com.example:artifact:1.0") =
      rs "com/example/artifact/1.0/artifact-1.0.jar" ∧
    MinecraftLauncher.maven_to_path (rs "com.example:artifact:1.0:natives") =
      rs "com/example/artifact/1.0/artifact-1.0-natives.jar" ∧
    ForgeInstaller.maven_to_path (rs "com.example:artifact:1.0:natives") =
      rs "com/example/artifact/1.0/artifact-1.0.jar" := by
  have e3 : rs "com.example:artifact:1.0" =
      rs "com.example" ++ ':' :: (rs "artifact" ++ ':' :: rs "1.0") := by decide
  have e4 : rs "com.example:artifact:1.0:natives" =
      rs "com.example" ++ ':' :: (rs "artifact" ++ ':' :: (rs "1.0" ++ ':' :: rs "natives")) := by
    decide
  have h1 := (C10_maven_to_path_total.1 (rs "a:b") (by decide)).1
  have h2 := C10_maven_to_path_total.2.1 (rs "com.example") (rs "artifact") (rs "1.0")
    (by decide) (by decide) (by decide)
  have h3 := C10_maven_to_path_total.2.2.1 (rs "com.example") (rs "artifact") (rs "1.0")
    (rs "natives") (by decide) (by decide) (by decide) (by decide)
  have h4 := C10_maven_to_path_total.2.2.2 (rs "com.example") (rs "artifact") (rs "1.0")
    (rs "natives") (by decide) (by decide) (by decide)
  refine ⟨h1, ?_, ?_, ?_, ?_⟩
  · rw [e3]
    exact h2.1.trans (by decide)
  · rw [e3]
    exact h2.2.trans (by decide)
  · rw [e4]
    exact h3.trans (by decide)
  · rw [e4]
    exact h4.trans (by decide)

/-! ## Classpath deduplication (`MinecraftLauncher::deduplicate_classpath`,
`src/core/minecraft/mod.rs` lines 466–499)

The string is split on `:`; each entry is trimmed, empty entries are
skipped, and an entry is kept exactly when its key — the file basename, or
the whole entry when it has no basename — has not been seen before.  Kept
entries are joined back with `:`. -/

namespace MinecraftLauncher

/-- The deduplication key of one (already trimmed) entry:
`Path::new(entry).file_name()` with the entry itself as fallback. -/
def dedupKey (entry : RStr) : RStr := (fileName entry).getD entry

/-- The entry loop of `deduplicate_classpath`, with `seen` the set of keys
inserted so far. -/
def dedupGo (seen : List RStr) : List RStr → List RStr
  | [] => []
  | e :: rest =>
    let e' := trimStr e
    if e' = [] then dedupGo seen rest
    else if dedupKey e' ∈ seen then dedupGo seen rest
    else e' :: dedupGo (dedupKey e' :: seen) rest

/-- Embedding of `MinecraftLauncher::deduplicate_classpath` (mod.rs lines 466–499). -/
def deduplicate_classpath (classpath : RStr) : RStr :=
  intercalateChar ':' (dedupGo [] (splitOnChar ':' classpath))

/-- The kept entries of a classpath string. -/
def dedupEntries (classpath : RStr) : List RStr :=
  dedupGo [] (splitOnChar ':' classpath)

/-- The trimmed non-empty entries of a classpath string, in order. -/
def cleanEntriesList (entries : List RStr) : List RStr :=
  (entries.map trimStr).filter (fun e => e ≠ [])

/-- The trimmed non-empty entries of a classpath string, in order. -/
def cleanEntries (classpath : RStr) : List RStr :=
  cleanEntriesList (splitOnChar ':' classpath)

theorem dedupGo_mem (L : List RStr) : ∀ seen, ∀ e ∈ dedupGo seen L,
    (∃ e₀ ∈ L, e = trimStr e₀) ∧ e ≠ [] ∧ dedupKey e ∉ seen := by
  induction L with
  | nil => intro seen e he; simp [dedupGo] at he
  | cons x rest ih =>
    intro seen e he
    simp only [dedupGo] at he
    by_cases hx : trimStr x = []
    · rw [if_pos hx] at he
      obtain ⟨⟨e₀, he₀, rfl⟩, h2, h3⟩ := ih seen e he
      exact ⟨⟨e₀, by simp [he₀], rfl⟩, h2, h3⟩
    · rw [if_neg hx] at he
      by_cases hk : dedupKey (trimStr x) ∈ seen
      · rw [if_pos hk] at he
        obtain ⟨⟨e₀, he₀, rfl⟩, h2, h3⟩ := ih seen e he
        exact ⟨⟨e₀, by simp [he₀], rfl⟩, h2, h3⟩
      · rw [if_neg hk] at he
        rw [List.mem_cons] at he
        rcases he with rfl | he
        · exact ⟨⟨x, by simp, rfl⟩, hx, hk⟩
        · obtain ⟨⟨e₀, he₀, rfl⟩, h2, h3⟩ := ih _ e he
          refine ⟨⟨e₀, by simp [he₀], rfl⟩, h2, fun hs => h3 ?_⟩
          exact List.mem_cons_of_mem _ hs
  
theorem dedupGo_keys_nodup (L : List RStr) : ∀ seen,
    ((dedupGo seen L).map dedupKey).Nodup := by
  induction L with
  | nil => intro seen; simp [dedupGo]
  | cons x rest ih =>
    intro seen
    simp only [dedupGo]
    by_cases hx : trimStr x = []
    · rw [if_pos hx]; exact ih seen
    · rw [if_neg hx]
      by_cases hk : dedupKey (trimStr x) ∈ seen
      · rw [if_pos hk]; exact ih seen
      · rw [if_neg hk]
        simp only [List.map_cons, List.nodup_cons]
        refine ⟨?_, ih _⟩
        intro hmem
        rw [List.mem_map] at hmem
        obtain ⟨e, he, hkey⟩ := hmem
        have := (dedupGo_mem rest _ e he).2.2
        rw [hkey] at this
        exact this (by simp)

theorem dedupGo_eq_self (L : List RStr) : ∀ seen,
    (∀ e ∈ L, trimStr e = e ∧ e ≠ []) →
    (L.map dedupKey).Nodup →
    (∀ e ∈ L, dedupKey e ∉ seen) →
    dedupGo seen L = L := by
  induction L with
  | nil => intro seen _ _ _; rfl
  | cons x rest ih =>
    intro seen hclean hnodup hseen
    have hx : trimStr x = x := (hclean x (by simp)).1
    have hxe : x ≠ [] := (hclean x (by simp)).2
    simp only [dedupGo, hx]
    rw [if_neg hxe, if_neg (hseen x (by simp))]
    congr 1
    refine ih _ (fun e he => hclean e (by simp [he])) (by simpa using hnodup.of_cons) ?_
    intro e he
    rw [List.mem_cons, not_or]
    constructor
    · intro hek
      rw [List.map_cons, List.nodup_cons] at hnodup
      exact hnodup.1 (hek ▸ List.mem_map_of_mem dedupKey he)
    · exact hseen e (by simp [he])

theorem dedupGo_sublist (L : List RStr) : ∀ seen,
    (dedupGo seen L).Sublist (cleanEntriesList L) := by
  induction L with
  | nil => intro seen; simp [dedupGo, cleanEntriesList]
  | cons x rest ih =>
    intro seen
    simp only [dedupGo, cleanEntriesList, List.map_cons]
    by_cases hx : trimStr x = []
    · rw [if_pos hx, List.filter_cons_of_neg (by simp [hx])]
      exact ih seen
    · rw [List.filter_cons_of_pos (by simp [hx]), if_neg hx]
      by_cases hk : dedupKey (trimStr x) ∈ seen
      · rw [if_pos hk]
        exact (ih seen).cons _
      · rw [if_neg hk]
        exact (ih _).cons₂ _

theorem dedupGo_find? (L : List RStr) : ∀ seen (k : RStr), k ∉ seen →
    (dedupGo seen L).find? (fun e => dedupKey e == k) =
      (cleanEntriesList L).find? (fun e => dedupKey e == k) := by
  induction L with
  | nil => intro seen k _; simp [dedupGo, cleanEntriesList]
  | cons x rest ih =>
    intro seen k hk
    simp only [dedupGo, cleanEntriesList, List.map_cons]
    by_cases hx : trimStr x = []
    · rw [if_pos hx, List.filter_cons_of_neg (by simp [hx])]
      exact ih seen k hk
    · rw [List.filter_cons_of_pos (by simp [hx]), if_neg hx]
      by_cases hkk : dedupKey (trimStr x) = k
      · by_cases hks : dedupKey (trimStr x) ∈ seen
        · exact absurd (hkk ▸ hks) hk
        · rw [if_neg hks]
          rw [List.find?_cons_of_pos _ (by simp [hkk]),
            List.find?_cons_of_pos _ (by simp [hkk])]
      · by_cases hks : dedupKey (trimStr x) ∈ seen
        · rw [if_pos hks, List.find?_cons_of_neg _ (by simp [hkk])]
          exact ih seen k hk
        · rw [if_neg hks, List.find?_cons_of_neg _ (by simp [hkk]),
            List.find?_cons_of_neg _ (by simp [hkk])]
          refine ih _ k ?_
          rw [List.mem_cons, not_or]
          exact ⟨fun h => hkk (h.symm), hk⟩

theorem dedupGo_no_colon (L : List RStr) (hL : ∀ e ∈ L, ':' ∉ e) :
    ∀ seen, ∀ e ∈ dedupGo seen L, ':' ∉ e := by
  intro seen e he
  obtain ⟨⟨e₀, he₀, rfl⟩, _, _⟩ := dedupGo_mem L seen e he
  exact not_mem_trimStr (hL e₀ he₀)

theorem dedupEntries_deduplicate (s : RStr) :
    dedupEntries (deduplicate_classpath s) = dedupEntries s := by
  rw [deduplicate_classpath, dedupEntries, dedupEntries]
  cases hU : dedupGo [] (splitOnChar ':' s) with
  | nil => simp [dedupGo, trimStr, intercalateChar, splitOnChar]
  | cons u us =>
    rw [← hU]
    have hfree : ∀ e ∈ dedupGo [] (splitOnChar ':' s), ':' ∉ e :=
      dedupGo_no_colon _ (splitOnChar_no_sep ':' s) []
    rw [splitOnChar_intercalateChar (by rw [hU]; simp) hfree]
    refine dedupGo_eq_self _ [] ?_ (dedupGo_keys_nodup _ []) (by simp)
    intro e he
    obtain ⟨⟨e₀, _, rfl⟩, hne, _⟩ := dedupGo_mem _ [] e he
    exact ⟨trimStr_idem e₀, hne⟩

end MinecraftLauncher

/-- Claim C6: the deduplication pass keys entries by file basename (full
entry as fallback), keeps exactly the first-seen entry for each key while
preserving order — the kept entries are a subsequence of the trimmed
non-empty input entries, their keys are pairwise distinct, and for every
key the kept entry is the first input entry carrying it — and the pass is
idempotent: `dedup (dedup x) = dedup x` for every classpath string `x`. -/
theorem C6_dedup_first_seen_idempotent :
    (∀ s : RStr, MinecraftLauncher.deduplicate_classpath
        (MinecraftLauncher.deduplicate_classpath s) =
      MinecraftLauncher.deduplicate_classpath s) ∧
    (∀ s : RStr, (MinecraftLauncher.dedupEntries s).Sublist
        (MinecraftLauncher.cleanEntries s)) ∧
    (∀ s : RStr,
      ((MinecraftLauncher.dedupEntries s).map MinecraftLauncher.dedupKey).Nodup) ∧
    (∀ s k : RStr,
      (MinecraftLauncher.dedupEntries s).find?
          (fun e => MinecraftLauncher.dedupKey e == k) =
        (MinecraftLauncher.cleanEntries s).find?
          (fun e => MinecraftLauncher.dedupKey e == k)) ∧
    (∀ s : RStr, MinecraftLauncher.deduplicate_classpath s =
      intercalateChar ':' (MinecraftLauncher.dedupEntries s)) := by
  refine ⟨?_, ?_, ?_, ?_, ?_⟩
  · intro s
    rw [MinecraftLauncher.deduplicate_classpath,
      show MinecraftLauncher.dedupGo [] (splitOnChar ':'
          (MinecraftLauncher.deduplicate_classpath s)) =
        MinecraftLauncher.dedupEntries (MinecraftLauncher.deduplicate_classpath s) from rfl,
      MinecraftLauncher.dedupEntries_deduplicate]
    rfl
  · intro s
    exact MinecraftLauncher.dedupGo_sublist _ []
  · intro s
    exact MinecraftLauncher.dedupGo_keys_nodup _ []
  · intro s k
    exact MinecraftLauncher.dedupGo_find? _ [] k (by simp)
  · intro s
    rfl

/-! ## Launch classpath assembly (`MinecraftLauncher::launch_neoforge_or_forge`,
mod.rs lines 309–327, and `MinecraftLauncher::launch`, mod.rs lines 195–228)

For Forge/NeoForge the client jar is placed first, followed by the
installer classpath and the vanilla classpath, and the result is
deduplicated; when the installer classpath is empty no deduplication runs.
For Fabric/Quilt/Vanilla the client jar is appended last (Fabric and Quilt
first filter vanilla ASM entries out of the vanilla classpath). -/

namespace MinecraftLauncher

/-- The combined `-cp` string of `launch_neoforge_or_forge`
(mod.rs lines 319–325). -/
def combined_classpath (clientJar : RStr) (installClasspath : List RStr)
    (vanillaClasspath : RStr) : RStr :=
  if installClasspath.isEmpty then clientJar ++ ':' :: vanillaClasspath
  else
    deduplicate_classpath
      (clientJar ++ ':' :: (intercalateChar ':' installClasspath ++ ':' :: vanillaClasspath))

/-- The vanilla-classpath ASM filter used on the Fabric and Quilt paths
(mod.rs lines 201–205 and 214–218). -/
def filter_vanilla_asm (classpath : RStr) : RStr :=
  intercalateChar ':'
    ((splitOnChar ':' classpath).filter fun path => ¬ strContains path (rs "/org/ow2/asm/"))

/-- The final Fabric classpath (mod.rs line 207):
`fabric_classpath:filtered_vanilla_cp:client_jar`. -/
def fabric_final_classpath (fabricClasspath vanillaClasspath clientJar : RStr) : RStr :=
  fabricClasspath ++ ':' :: (filter_vanilla_asm vanillaClasspath ++ ':' :: clientJar)

/-- The final Quilt classpath (mod.rs line 220), same shape as Fabric. -/
def quilt_final_classpath (quiltClasspath vanillaClasspath clientJar : RStr) : RStr :=
  quiltClasspath ++ ':' :: (filter_vanilla_asm vanillaClasspath ++ ':' :: clientJar)

/-- The final Vanilla classpath (mod.rs line 224): `classpath:client_jar`. -/
def vanilla_final_classpath (classpath clientJar : RStr) : RStr :=
  classpath ++ ':' :: clientJar

end MinecraftLauncher

/-- Claim C7: for the module-system bootstrap loaders (Forge/NeoForge) the
client jar is the first entry of the assembled `-cp` string — also after
deduplication — while for the legacy loaders (Fabric, Quilt, Vanilla) the
client jar is the last classpath entry. -/
theorem C7_game_jar_ordering :
    (∀ clientJar vanillaCp : RStr, ∀ installCp : List RStr,
      ':' ∉ clientJar → trimStr clientJar = clientJar → clientJar ≠ [] →
      (splitOnChar ':'
          (MinecraftLauncher.combined_classpath clientJar installCp vanillaCp)).head? =
        some clientJar) ∧
    (∀ fabricCp vanillaCp clientJar : RStr, ':' ∉ clientJar →
      (splitOnChar ':'
          (MinecraftLauncher.fabric_final_classpath fabricCp vanillaCp clientJar)).getLast? =
        some clientJar) ∧
    (∀ quiltCp vanillaCp clientJar : RStr, ':' ∉ clientJar →
      (splitOnChar ':'
          (MinecraftLauncher.quilt_final_classpath quiltCp vanillaCp clientJar)).getLast? =
        some clientJar) ∧
    (∀ cp clientJar : RStr, ':' ∉ clientJar →
      (splitOnChar ':'
          (MinecraftLauncher.vanilla_final_classpath cp clientJar)).getLast? =
        some clientJar) := by
  have hlast : ∀ s clientJar : RStr, ':' ∉ clientJar →
      (splitOnChar ':' (s ++ ':' :: clientJar)).getLast? = some clientJar := by
    intro s clientJar hj
    rw [splitOnChar_getLast?_append_cons, splitOnChar_of_not_mem hj]
    rfl
  refine ⟨?_, ?_, ?_, ?_⟩
  · intro clientJar vanillaCp installCp hfree htrim hne
    rw [MinecraftLauncher.combined_classpath]
    by_cases hemp : installCp.isEmpty
    · rw [if_pos hemp, splitOnChar_append_cons _ hfree]
      rfl
    · rw [if_neg hemp, MinecraftLauncher.deduplicate_classpath,
        splitOnChar_append_cons _ hfree]
      simp only [MinecraftLauncher.dedupGo, htrim]
      rw [if_neg hne, if_neg (by simp)]
      set out := MinecraftLauncher.dedupGo [MinecraftLauncher.dedupKey clientJar]
        (splitOnChar ':' (intercalateChar ':' installCp ++ ':' :: vanillaCp)) with hout
      have hfree' : ∀ e ∈ clientJar :: out, ':' ∉ e := by
        intro e he
        rw [List.mem_cons] at he
        rcases he with rfl | he
        · exact hfree
        · exact MinecraftLauncher.dedupGo_no_colon _ (splitOnChar_no_sep ':' _) _ e he
      rw [splitOnChar_intercalateChar (by simp) hfree']
      rfl
  · intro fabricCp vanillaCp clientJar hj
    rw [MinecraftLauncher.fabric_final_classpath, splitOnChar_getLast?_append_cons]
    exact hlast _ clientJar hj
  · intro quiltCp vanillaCp clientJar hj
    rw [MinecraftLauncher.quilt_final_classpath, splitOnChar_getLast?_append_cons]
    exact hlast _ clientJar hj
  · intro cp clientJar hj
    exact hlast cp clientJar hj

/-- Witness for `C7_game_jar_ordering`: the ordering at a concrete launch,
with a non-empty installer classpath (so deduplication runs) and on the
Fabric/Quilt/Vanilla shapes. -/
theorem C7_witness :
    (splitOnChar ':' (MinecraftLauncher.combined_classpath
        (rs "/v/1.21.1.jar") [rs "/l/a.jar", rs "/l/b.jar"] (rs "/l/c.jar"))).head? =
      some (rs "/v/1.21.1.jar") ∧
    (splitOnChar ':' (MinecraftLauncher.fabric_final_classpath
        (rs "/l/fabric.jar") (rs "/l/c.jar") (rs "/v/1.20.1.jar"))).getLast? =
      some (rs "/v/1.20.1.jar") ∧
    (splitOnChar ':' (MinecraftLauncher.quilt_final_classpath
        (rs "/l/quilt.jar") (rs "/l/c.jar") (rs "/v/1.20.2.jar"))).getLast? =
      some (rs "/v/1.20.2.jar") ∧
    (splitOnChar ':' (MinecraftLauncher.vanilla_final_classpath
        (rs "/l/c.jar") (rs "/v/1.20.4.jar"))).getLast? =
      some (rs "/v/1.20.4.jar") :=
  ⟨C7_game_jar_ordering.1 (rs "/v/1.21.1.jar") (rs "/l/c.jar")
      [rs "/l/a.jar", rs "/l/b.jar"] (by decide) (by decide) (by decide),
   C7_game_jar_ordering.2.1 (rs "/l/fabric.jar") (rs "/l/c.jar") (rs "/v/1.20.1.jar")
      (by decide),
   C7_game_jar_ordering.2.2.1 (rs "/l/quilt.jar") (rs "/l/c.jar") (rs "/v/1.20.2.jar")
      (by decide),
   C7_game_jar_ordering.2.2.2 (rs "/l/c.jar") (rs "/v/1.20.4.jar") (by decide)⟩

/-! ## Classpath/module-path (non-)disjointness at launch

`install_neoforge_complete` (mod.rs lines 750–800) partitions the loader
libraries between classpath and module path, but
`launch_neoforge_or_forge` (mod.rs lines 309–327) then merges the client
jar, the installer classpath and the *unfiltered* vanilla classpath and
only deduplicates within that combined classpath — never against the
module path. -/

namespace MinecraftLauncher

/-- The NeoForge module-path test of `install_neoforge_complete`
(mod.rs lines 786–792). -/
def neoforge_is_module (name : RStr) : Bool :=
  strContains name (rs "bootstraplauncher") ||
  strContains name (rs "securejarhandler") ||
  strContains name (rs "jarjar") ||
  strContains name (rs "asm")

/-- Destination path of a library resolved through its Maven coordinate:
`libraries_dir.join(maven_to_path(name))`. -/
def libraryDest (librariesDir name : RStr) : RStr :=
  librariesDir ++ '/' :: maven_to_path name

/-- The classification loop of `install_neoforge_complete` over the
declared library names (each resolved through its Maven coordinate and
present on disk), returning `(classpath, module_path)`. -/
def neoforge_classify_libraries (librariesDir : RStr) : List RStr → List RStr × List RStr
  | [] => ([], [])
  | name :: rest =>
    let acc := neoforge_classify_libraries librariesDir rest
    let path := libraryDest librariesDir name
    if neoforge_is_module name then (acc.1, path :: acc.2) else (path :: acc.1, acc.2)

theorem cleanEntriesList_eq_self {L : List RStr}
    (h : ∀ e ∈ L, trimStr e = e ∧ e ≠ []) : cleanEntriesList L = L := by
  induction L with
  | nil => rfl
  | cons x rest ih =>
    have hx := h x (by simp)
    simp only [cleanEntriesList, List.map_cons, hx.1]
    rw [List.filter_cons_of_pos (by simp [hx.2])]
    rw [show (List.filter (fun e => e ≠ []) (List.map trimStr rest)) =
      cleanEntriesList rest from rfl, ih (fun e he => h e (by simp [he]))]

theorem mem_cleanEntriesList {L : List RStr} {e₀ : RStr} (h : e₀ ∈ L)
    (hne : trimStr e₀ ≠ []) : trimStr e₀ ∈ cleanEntriesList L := by
  rw [cleanEntriesList, List.mem_filter]
  exact ⟨List.mem_map_of_mem trimStr h, by simpa using hne⟩

/-- The clean entries of a deduplicated classpath are exactly the kept
entries of the original. -/
theorem cleanEntries_deduplicate (s : RStr) :
    cleanEntries (deduplicate_classpath s) = dedupEntries s := by
  rw [deduplicate_classpath, cleanEntries]
  cases hU : dedupEntries s with
  | nil =>
    rw [dedupEntries] at hU
    rw [hU]
    rfl
  | cons u us =>
    rw [dedupEntries] at hU
    have hfree : ∀ e ∈ MinecraftLauncher.dedupGo [] (splitOnChar ':' s), ':' ∉ e :=
      dedupGo_no_colon _ (splitOnChar_no_sep ':' s) []
    rw [splitOnChar_intercalateChar (by rw [hU]; simp) hfree, ← hU]
    refine cleanEntriesList_eq_self ?_
    intro e he
    obtain ⟨⟨e₀, _, rfl⟩, hne, _⟩ := dedupGo_mem _ [] e he
    exact ⟨trimStr_idem e₀, hne⟩

theorem dedupEntries_subset_cleanEntries (s : RStr) :
    ∀ e ∈ dedupEntries s, e ∈ cleanEntries s := by
  intro e he
  exact (dedupGo_sublist _ []).subset he

/-- Splitting `intercalate l ++ ':' :: t` for separator-free non-empty `l`
recovers `l` followed by the split of `t`. -/
theorem splitOnChar_intercalate_append_cons {c : Char} {l : List RStr}
    (t : RStr) (hne : l ≠ []) (h : ∀ p ∈ l, c ∉ p) :
    splitOnChar c (intercalateChar c l ++ c :: t) = l ++ splitOnChar c t := by
  induction l with
  | nil => exact absurd rfl hne
  | cons x xs ih =>
    cases xs with
    | nil =>
      simp only [intercalateChar]
      rw [splitOnChar_append_cons t (h x (by simp)), List.singleton_append]
    | cons y ys =>
      rw [intercalateChar_cons c x (by simp), List.append_assoc, List.cons_append,
        splitOnChar_append_cons _ (h x (by simp)),
        ih (by simp) (fun p hp => h p (by simp [hp]))]
      rfl

end MinecraftLauncher

/-- Counterexample to claim C2: the claimed classpath/module-path disjointness
fails on the code: for the NeoForge library list `["org.ow2.asm:asm:9.7"]`
(classified onto the module path) and a vanilla classpath that also
carries the ASM jar, the basename `asm-9.7.jar` occurs both as a
module-path entry and as an entry of the combined `-cp` string. -/
theorem C2_counterexample :
    (rs "asm-9.7.jar") ∈
      (splitOnChar ':' (MinecraftLauncher.combined_classpath
          (rs "/versions/1.21.1/1.21.1.jar")
          (MinecraftLauncher.neoforge_classify_libraries (rs "/libraries")
            [rs "org.ow2.asm:asm:9.7"]).1
          (rs "/libraries/org/ow2/asm/asm/9.7/asm-9.7.jar"))).map
        MinecraftLauncher.dedupKey ∧
    (rs "asm-9.7.jar") ∈
      (MinecraftLauncher.neoforge_classify_libraries (rs "/libraries")
          [rs "org.ow2.asm:asm:9.7"]).2.map MinecraftLauncher.dedupKey := by
  constructor
  · decide
  · decide

/-- Claim C2 as amended: the installer's classification itself is a clean
partition — each declared library lands on exactly one side, the module
path receiving precisely the pattern-matching names — and the combined
launch classpath is disjoint (by basename) from the module path only under
the additional assumption that no input entry (client jar, installer
classpath entry, or vanilla classpath entry) shares a basename with a
module-path entry; the code itself never filters the vanilla classpath
against the module path. -/
theorem C2_partition_and_conditional_disjointness :
    (∀ librariesDir : RStr, ∀ names : List RStr,
      (MinecraftLauncher.neoforge_classify_libraries librariesDir names).1 =
        (names.filter fun n => ¬ MinecraftLauncher.neoforge_is_module n).map
          (MinecraftLauncher.libraryDest librariesDir) ∧
      (MinecraftLauncher.neoforge_classify_libraries librariesDir names).2 =
        (names.filter fun n => MinecraftLauncher.neoforge_is_module n).map
          (MinecraftLauncher.libraryDest librariesDir)) ∧
    (∀ clientJar vanillaCp : RStr, ∀ installCp modulePath : List RStr,
      ':' ∉ clientJar →
      (∀ e ∈ installCp, ':' ∉ e) →
      (∀ k ∈ (MinecraftLauncher.cleanEntriesList
          (clientJar :: installCp ++ splitOnChar ':' vanillaCp)).map
            MinecraftLauncher.dedupKey,
        k ∉ modulePath.map MinecraftLauncher.dedupKey) →
      ∀ k ∈ (MinecraftLauncher.cleanEntries
          (MinecraftLauncher.combined_classpath clientJar installCp vanillaCp)).map
            MinecraftLauncher.dedupKey,
        k ∉ modulePath.map MinecraftLauncher.dedupKey) := by
  constructor
  · intro librariesDir names
    induction names with
    | nil => exact ⟨rfl, rfl⟩
    | cons n rest ih =>
      simp only [MinecraftLauncher.neoforge_classify_libraries]
      by_cases hn : MinecraftLauncher.neoforge_is_module n
      · rw [if_pos hn]
        refine ⟨?_, ?_⟩
        · rw [List.filter_cons_of_neg (by simp [hn])]
          exact ih.1
        · rw [List.filter_cons_of_pos (by simp [hn]), List.map_cons]
          rw [ih.2]
      · rw [if_neg hn]
        refine ⟨?_, ?_⟩
        · rw [List.filter_cons_of_pos (by simp [hn]), List.map_cons]
          rw [ih.1]
        · rw [List.filter_cons_of_neg (by simp [hn])]
          exact ih.2
  · intro clientJar vanillaCp installCp modulePath hfree hfreecp hyp k hk
    rw [List.mem_map] at hk
    obtain ⟨e, he, rfl⟩ := hk
    refine hyp _ (List.mem_map_of_mem _ ?_)
    rw [MinecraftLauncher.combined_classpath] at he
    by_cases hemp : installCp.isEmpty
    · rw [if_pos hemp] at he
      have : installCp = [] := by simpa [List.isEmpty_iff] using hemp
      subst this
      rw [MinecraftLauncher.cleanEntries, splitOnChar_append_cons _ hfree] at he
      simpa using he
    · rw [if_neg hemp] at he
      have hie : installCp ≠ [] := by simpa [List.isEmpty_iff] using hemp
      rw [MinecraftLauncher.cleanEntries_deduplicate] at he
      have he' := MinecraftLauncher.dedupEntries_subset_cleanEntries _ e he
      rw [MinecraftLauncher.cleanEntries, splitOnChar_append_cons _ hfree,
        MinecraftLauncher.splitOnChar_intercalate_append_cons vanillaCp hie hfreecp] at he'
      simpa using he'

/-- Witness for `C2_partition_and_conditional_disjointness`: the
disjointness hypothesis discharged at a concrete launch whose inputs share
no basename with the module path. -/
theorem C2_witness :
    (rs "b.jar") ∈ (MinecraftLauncher.cleanEntries
        (MinecraftLauncher.combined_classpath (rs "/v/c.jar") [rs "/l/a.jar"]
          (rs "/l/b.jar"))).map MinecraftLauncher.dedupKey ∧
    (rs "b.jar") ∉ ([rs "/m/x.jar"].map MinecraftLauncher.dedupKey) :=
  ⟨by decide,
   C2_partition_and_conditional_disjointness.2 (rs "/v/c.jar") (rs "/l/b.jar")
     [rs "/l/a.jar"] [rs "/m/x.jar"] (by decide) (by decide) (by decide)
     (rs "b.jar") (by decide)⟩

/-! ## Hash-verified download (`DownloadManager::download_with_hash`,
`src/core/download/mod.rs` lines 53–107)

The loop downloads, hashes, and on mismatch deletes the file, decrements
the retry budget (initially 3) and sleeps one second when budget remains;
after three mismatches it logs a warning, downloads once more without
verification, and returns success.  The network fetch is modelled as a
function from the attempt index to the downloaded bytes (`β`), the hash as
an abstract function `β → RStr`; the outcome records the on-disk content
and the observable effect counts. -/

namespace DownloadManager

/-- Observable outcome of one `download_with_hash` call. -/
structure DownloadOutcome (β : Type) where
  success : Bool
  onDisk : Option β
  downloads : Nat
  deletions : Nat
  sleeps : Nat
  warned : Bool
  deriving DecidableEq

/-- The retry loop of `download_with_hash` with an expected hash, with
explicit attempt index `k` and effect counters. -/
def download_with_hash_loop {β : Type} (fetch : Nat → β) (hash : β → RStr)
    (expected : RStr) : Nat → Nat → Nat → Nat → Nat → DownloadOutcome β
  | 0, k, d, del, sl => ⟨true, some (fetch k), d + 1, del, sl, true⟩
  | retries + 1, k, d, del, sl =>
    if toLowerStr (hash (fetch k)) = toLowerStr expected then
      ⟨true, some (fetch k), d + 1, del, sl, false⟩
    else
      download_with_hash_loop fetch hash expected retries (k + 1) (d + 1) (del + 1)
        (if 0 < retries then sl + 1 else sl)

/-- Embedding of `DownloadManager::download_with_hash`: no expected hash means a single
download and immediate success; otherwise the retry loop runs with a
budget of 3. -/
def download_with_hash {β : Type} (fetch : Nat → β) (hash : β → RStr)
    (expected : Option RStr) : DownloadOutcome β :=
  match expected with
  | none => ⟨true, some (fetch 0), 1, 0, 0, false⟩
  | some e => download_with_hash_loop fetch hash e 3 0 0 0 0

theorem download_with_hash_loop_zero {β : Type} (fetch : Nat → β) (hash : β → RStr)
    (e : RStr) (k d del sl : Nat) :
    download_with_hash_loop fetch hash e 0 k d del sl =
      ⟨true, some (fetch k), d + 1, del, sl, true⟩ := rfl

theorem download_with_hash_loop_match {β : Type} {fetch : Nat → β} {hash : β → RStr}
    {e : RStr} {k : Nat} (r d del sl : Nat)
    (h : toLowerStr (hash (fetch k)) = toLowerStr e) :
    download_with_hash_loop fetch hash e (r + 1) k d del sl =
      ⟨true, some (fetch k), d + 1, del, sl, false⟩ := by
  simp [download_with_hash_loop, h]

theorem download_with_hash_loop_mismatch {β : Type} {fetch : Nat → β} {hash : β → RStr}
    {e : RStr} {k : Nat} (r d del sl : Nat)
    (h : toLowerStr (hash (fetch k)) ≠ toLowerStr e) :
    download_with_hash_loop fetch hash e (r + 1) k d del sl =
      download_with_hash_loop fetch hash e r (k + 1) (d + 1) (del + 1)
        (if 0 < r then sl + 1 else sl) := by
  simp [download_with_hash_loop, h]

end DownloadManager

/-- Claim C3: `download_with_hash` with an expected SHA-1 deletes the file
and retries on each mismatch, with a budget of 3 attempts and a 1-second
backoff between attempts: if the first `N` attempts mismatch and attempt
`N + 1` (with `N < 3`) produces the expected hash, the call succeeds with
exactly that content on disk after `N` deletions and `N` sleeps; and if
all 3 attempts mismatch, the call logs a warning, performs one final
unverified download, and still returns success with the bytes of that last
download on disk. -/
theorem C3_download_with_hash_retry_policy :
    (∀ (β : Type) (fetch : Nat → β) (hash : β → RStr) (e : RStr) (N : Nat),
      N < 3 →
      (∀ i, i < N → toLowerStr (hash (fetch i)) ≠ toLowerStr e) →
      toLowerStr (hash (fetch N)) = toLowerStr e →
      DownloadManager.download_with_hash fetch hash (some e) =
        ⟨true, some (fetch N), N + 1, N, N, false⟩) ∧
    (∀ (β : Type) (fetch : Nat → β) (hash : β → RStr) (e : RStr),
      (∀ i, i < 3 → toLowerStr (hash (fetch i)) ≠ toLowerStr e) →
      DownloadManager.download_with_hash fetch hash (some e) =
        ⟨true, some (fetch 3), 4, 3, 2, true⟩) := by
  constructor
  · intro β fetch hash e N hN hmiss hmatch
    interval_cases N
    · rw [DownloadManager.download_with_hash,
        show (3 : Nat) = 2 + 1 from rfl,
        DownloadManager.download_with_hash_loop_match 2 0 0 0 hmatch]
    · rw [DownloadManager.download_with_hash,
        show (3 : Nat) = 2 + 1 from rfl,
        DownloadManager.download_with_hash_loop_mismatch 2 0 0 0 (hmiss 0 (by omega)),
        show (2 : Nat) = 1 + 1 from rfl,
        DownloadManager.download_with_hash_loop_match 1 (0 + 1) (0 + 1)
          (if 0 < 1 + 1 then 0 + 1 else 0) hmatch]
      norm_num
    · rw [DownloadManager.download_with_hash,
        show (3 : Nat) = 2 + 1 from rfl,
        DownloadManager.download_with_hash_loop_mismatch 2 0 0 0 (hmiss 0 (by omega)),
        show (2 : Nat) = 1 + 1 from rfl,
        DownloadManager.download_with_hash_loop_mismatch 1 (0 + 1) (0 + 1)
          (if 0 < 1 + 1 then 0 + 1 else 0) (hmiss 1 (by omega)),
        show (1 : Nat) = 0 + 1 from rfl,
        DownloadManager.download_with_hash_loop_match 0 (0 + 1 + 1) (0 + 1 + 1)
          (if 0 < 0 + 1 then (if 0 < 1 + 1 then 0 + 1 else 0) + 1
           else (if 0 < 1 + 1 then 0 + 1 else 0)) hmatch]
      norm_num
  · intro β fetch hash e hmiss
    rw [DownloadManager.download_with_hash,
      show (3 : Nat) = 2 + 1 from rfl,
      DownloadManager.download_with_hash_loop_mismatch 2 0 0 0 (hmiss 0 (by omega)),
      show (2 : Nat) = 1 + 1 from rfl,
      DownloadManager.download_with_hash_loop_mismatch 1 (0 + 1) (0 + 1)
        (if 0 < 1 + 1 then 0 + 1 else 0) (hmiss 1 (by omega)),
      show (1 : Nat) = 0 + 1 from rfl,
      DownloadManager.download_with_hash_loop_mismatch 0 (0 + 1 + 1) (0 + 1 + 1)
        (if 0 < 0 + 1 then (if 0 < 1 + 1 then 0 + 1 else 0) + 1
         else (if 0 < 1 + 1 then 0 + 1 else 0)) (hmiss 2 (by omega)),
      DownloadManager.download_with_hash_loop_zero]
    norm_num

/-- Concrete fetch for the `C3` witness: attempt `i` downloads the value `i`. -/
def c3Fetch (i : Nat) : Nat := i

/-- Concrete hash for the `C3` witness: only the bytes of attempt 2 hash to
`"aa"`; everything else hashes to `"bb"`. -/
def c3Hash (b : Nat) : RStr := if b = 2 then rs "aa" else rs "bb"

/-- Concrete hash for the `C3` witness that never matches `"aa"`. -/
def c3HashBad (_b : Nat) : RStr := rs "zz"

/-- Witness for `C3_download_with_hash_retry_policy`: a download whose
first two attempts mismatch and whose third matches the (upper-case)
expected hash, and a download whose every attempt mismatches. -/
theorem C3_witness :
    DownloadManager.download_with_hash c3Fetch c3Hash (some (rs "AA")) =
      ⟨true, some 2, 3, 2, 2, false⟩ ∧
    DownloadManager.download_with_hash c3Fetch c3HashBad (some (rs "AA")) =
      ⟨true, some 3, 4, 3, 2, true⟩ :=
  ⟨C3_download_with_hash_retry_policy.1 Nat c3Fetch c3Hash (rs "AA") 2 (by omega)
      (fun i hi => by interval_cases i <;> decide) (by decide),
   C3_download_with_hash_retry_policy.2 Nat c3Fetch c3HashBad (rs "AA")
      (fun i hi => by interval_cases i <;> decide)⟩

/-! ## NeoForge version matching (`NeoForgeClient::filter_matching_versions`,
`src/api/neoforge.rs` lines 58–98, and the game-version inference of
`install_neoforge_complete`, mod.rs lines 692–699)

A NeoForge version matches game version `1.minor.patch` when the version
string starts with the prefix `"minor.patch."` (string prefix with a
trailing dot), except that game `1.20.1` matches nothing and game minors
below 20 match nothing. -/

namespace NeoForgeClient

/-- Embedding of `NeoForgeClient::filter_matching_versions` (neoforge.rs lines 58–98). -/
def filter_matching_versions (all_versions : List RStr) (mc_version : RStr) :
    List RStr :=
  let mc_parts := splitOnChar '.' mc_version
  if mc_parts.length < 2 then []
  else
    let minor := mc_parts.getD 1 []
    let patch := mc_parts.getD 2 (rs "0")
    all_versions.filter fun version =>
      if minor = rs "20" ∧ patch = rs "1" then false
      else if 20 ≤ (parseU32 minor).getD 0 then
        let expected :=
          if patch = rs "0" then minor ++ rs ".0."
          else minor ++ '.' :: (patch ++ rs ".")
        List.isPrefixOf expected version
      else false

/-- The game-version inference of `install_neoforge_complete`
(mod.rs lines 692–699): `format!("1.{}.{}", parts[0], parts[1])` with
fallbacks `"21"` and `"1"`. -/
def infer_mc_version (neoforge_version : RStr) : RStr :=
  let parts := splitOnChar '.' neoforge_version
  rs "1." ++ parts.getD 0 (rs "21") ++ '.' :: parts.getD 1 (rs "1")

end NeoForgeClient

/-- Modelled from the claim's words (for refutation only): a NeoForge
version matches game `1.X.Y` exactly when its first dotted numeric
component equals `X` and its second equals `Y` (missing game patch counts
as 0), minus the `1.20.1` carve-out and the minors below 20. -/
def claimNeoForgeMatches (version mc_version : RStr) : Bool :=
  let mc_parts := splitOnChar '.' mc_version
  let xval := parseU32 (mc_parts.getD 1 [])
  let yval := match mc_parts.getD 2 (rs "0") with
    | p => parseU32 p
  let vparts := splitOnChar '.' version
  let v1 := parseU32 (vparts.getD 0 [])
  let v2 := parseU32 (vparts.getD 1 [])
  if mc_version = rs "1.20.1" then false
  else
    match xval, yval, v1, v2 with
    | some x, some y, some a, some b => 20 ≤ x ∧ a = x ∧ b = y
    | _, _, _, _ => false

/-- Counterexample to claim C4: the claim's numeric-component criterion and the
code disagree: NeoForge version `"21.1"` has first numeric component 21
and second numeric component 1 — the claim says it matches game
`"1.21.1"` — but the code requires the string prefix `"21.1."` and
rejects it. -/
theorem C4_counterexample :
    claimNeoForgeMatches (rs "21.1") (rs "1.21.1") = true ∧
    NeoForgeClient.filter_matching_versions [rs "21.1"] (rs "1.21.1") = [] := by
  constructor
  · decide
  · decide

/-- Claim C4 as amended: a NeoForge version matches game version
`1.minor.patch` exactly when the version string *starts with the string
prefix* `"minor.patch."` (missing game patch counts as `"0"`), except that
game `1.20.1` (string test on minor and patch) matches nothing, game
minors parsing below 20 match nothing, and a game version with fewer than
two dotted parts matches nothing; in particular every `21.1.*` version
matches `1.21.1`, every `20.4.*` version matches `1.20.4`, and the
inferred game version of `21.1.77` is `1.21.1` and of `20.4.233` is
`1.20.4`. -/
theorem C4_neoforge_matching :
    (∀ (versions : List RStr) (mc v : RStr),
      2 ≤ (splitOnChar '.' mc).length →
      (v ∈ NeoForgeClient.filter_matching_versions versions mc ↔
        v ∈ versions ∧
        ¬((splitOnChar '.' mc).getD 1 [] = rs "20" ∧
          (splitOnChar '.' mc).getD 2 (rs "0") = rs "1") ∧
        20 ≤ (parseU32 ((splitOnChar '.' mc).getD 1 [])).getD 0 ∧
        List.isPrefixOf
          ((splitOnChar '.' mc).getD 1 [] ++
            '.' :: ((splitOnChar '.' mc).getD 2 (rs "0") ++ rs "."))
          v = true)) ∧
    (∀ (versions : List RStr) (mc : RStr),
      (parseU32 ((splitOnChar '.' mc).getD 1 [])).getD 0 < 20 →
      NeoForgeClient.filter_matching_versions versions mc = []) ∧
    (∀ versions : List RStr,
      NeoForgeClient.filter_matching_versions versions (rs "1.20.1") = []) ∧
    NeoForgeClient.filter_matching_versions [rs "21.1.77"] (rs "1.21.1") =
      [rs "21.1.77"] ∧
    NeoForgeClient.filter_matching_versions [rs "20.4.233"] (rs "1.20.4") =
      [rs "20.4.233"] ∧
    NeoForgeClient.infer_mc_version (rs "21.1.77") = rs "1.21.1" ∧
    NeoForgeClient.infer_mc_version (rs "20.4.233") = rs "1.20.4" := by
  have hexp : ∀ minor patch : RStr,
      (if patch = rs "0" then minor ++ rs ".0."
       else minor ++ '.' :: (patch ++ rs ".")) =
      minor ++ '.' :: (patch ++ rs ".") := by
    intro minor patch
    split
    · rename_i hp
      rw [hp]
      rfl
    · rfl
  refine ⟨?_, ?_, ?_, by decide, by decide, by decide, by decide⟩
  · intro versions mc v hlen
    rw [NeoForgeClient.filter_matching_versions]
    simp only [if_neg (by omega : ¬ (splitOnChar '.' mc).length < 2)]
    rw [List.mem_filter]
    constructor
    · rintro ⟨hv, hpred⟩
      refine ⟨hv, ?_⟩
      split at hpred
      · exact absurd hpred (by simp)
      · rename_i hcarve
        split at hpred
        · rename_i hge
          rw [hexp] at hpred
          exact ⟨hcarve, hge, hpred⟩
        · exact absurd hpred (by simp)
    · rintro ⟨hv, hcarve, hge, hpre⟩
      refine ⟨hv, ?_⟩
      rw [if_neg hcarve, if_pos hge, hexp]
      exact hpre
  · intro versions mc hlt
    rw [NeoForgeClient.filter_matching_versions]
    by_cases hlen : (splitOnChar '.' mc).length < 2
    · rw [if_pos hlen]
    · rw [if_neg hlen]
      refine List.filter_eq_nil_iff.mpr ?_
      intro v hv
      rw [if_neg ?_, if_neg (by omega)]
      · simp
      · rintro ⟨h20, _⟩
        rw [h20] at hlt
        revert hlt
        decide
  · intro versions
    rw [NeoForgeClient.filter_matching_versions]
    rw [if_neg (by decide)]
    refine List.filter_eq_nil_iff.mpr ?_
    intro v hv
    rw [if_pos (by decide)]
    simp

/-- Witness for `C4_neoforge_matching`: the membership characterization
and the below-20 emptiness at concrete versions. -/
theorem C4_witness :
    ((rs "21.1.77") ∈
        NeoForgeClient.filter_matching_versions [rs "21.1.77"] (rs "1.21.1") ↔
      (rs "21.1.77") ∈ [rs "21.1.77"] ∧
      ¬((splitOnChar '.' (rs "1.21.1")).getD 1 [] = rs "20" ∧
        (splitOnChar '.' (rs "1.21.1")).getD 2 (rs "0") = rs "1") ∧
      20 ≤ (parseU32 ((splitOnChar '.' (rs "1.21.1")).getD 1 [])).getD 0 ∧
      List.isPrefixOf
        ((splitOnChar '.' (rs "1.21.1")).getD 1 [] ++
          '.' :: ((splitOnChar '.' (rs "1.21.1")).getD 2 (rs "0") ++ rs "."))
        (rs "21.1.77") = true) ∧
    NeoForgeClient.filter_matching_versions [rs "47.1.106"] (rs "1.19.4") = [] :=
  ⟨C4_neoforge_matching.1 [rs "21.1.77"] (rs "1.21.1") (rs "21.1.77") (by decide),
   C4_neoforge_matching.2.1 [rs "47.1.106"] (rs "1.19.4") (by decide)⟩

/-! ## Version comparison (`ForgeClient::compare_version_strings`,
`src/api/forge.rs` lines 168–189, and `ForgeCompatClient::compare_versions`,
`src/api/forge_compat.rs` lines 154–176)

Both functions parse a version into the `u32` values of its parseable dot
segments (unparseable segments are silently dropped) and compare the two
value lists index by index up to the longer length, missing entries
counting as zero; the compat revision first strips every leading `"1."`
from its inputs.  `lexPadCompare` is the clean zero-padded lexicographic
comparison the loop computes. -/

/-- Rust `u32::cmp`. -/
def natCompare (a b : Nat) : Ordering :=
  if a < b then .lt else if b < a then .gt else .eq

/-- The comparison loop shared verbatim by forge.rs and forge_compat.rs:
`for i in 0..max(len) { match a[i].cmp(b[i]) { Equal => continue, o => return o } }`. -/
def compareSegmentsFrom (as bs : List Nat) : Nat → Nat → Ordering
  | 0, _ => .eq
  | n + 1, i =>
    match natCompare (as.getD i 0) (bs.getD i 0) with
    | .eq => compareSegmentsFrom as bs n (i + 1)
    | o => o

/-- Zero-padded comparison of the empty list against a segment list. -/
def lexPadZero : List Nat → Ordering
  | [] => .eq
  | y :: ys => (natCompare 0 y).then (lexPadZero ys)

/-- Zero-padded lexicographic comparison of segment lists. -/
def lexPadCompare : List Nat → List Nat → Ordering
  | [], bs => lexPadZero bs
  | x :: xs, bs => (natCompare x (bs.getD 0 0)).then (lexPadCompare xs bs.tail)

/-- The mathematical segment values of a version string (the claim's
"segment-wise unsigned-integer values"). -/
def specSegVals (v : RStr) : List Nat :=
  (splitOnChar '.' v).map digitsVal

/-- All dot segments of `v` are non-empty digit strings whose values fit
in a `u32`. -/
def SegsNumericU32 (v : RStr) : Prop :=
  ∀ p ∈ splitOnChar '.' v, p ≠ [] ∧ p.all Char.isDigit = true ∧ digitsVal p < 2 ^ 32

instance (v : RStr) : Decidable (SegsNumericU32 v) := by
  unfold SegsNumericU32
  infer_instance

theorem natCompare_self (a : Nat) : natCompare a a = .eq := by
  simp [natCompare]

theorem natCompare_eq_lt {a b : Nat} : natCompare a b = .lt ↔ a < b := by
  unfold natCompare
  split_ifs with h1 h2
  · simp [h1]
  · constructor
    · intro h
      simp at h
    · intro h
      exact absurd h h1
  · constructor
    · intro h
      simp at h
    · intro h
      exact absurd h h1

theorem natCompare_eq_gt {a b : Nat} : natCompare a b = .gt ↔ b < a := by
  unfold natCompare
  split_ifs with h1 h2
  · constructor
    · intro h
      simp at h
    · intro h
      omega
  · simp [h2]
  · constructor
    · intro h
      simp at h
    · intro h
      omega

theorem natCompare_eq_eq {a b : Nat} : natCompare a b = .eq ↔ a = b := by
  unfold natCompare
  split_ifs with h1 h2
  · constructor
    · intro h
      simp at h
    · intro h
      omega
  · constructor
    · intro h
      simp at h
    · intro h
      omega
  · constructor
    · intro _
      omega
    · intro _
      rfl

theorem natCompare_swap (a b : Nat) : natCompare a b = (natCompare b a).swap := by
  unfold natCompare
  split_ifs <;> first | rfl | omega

theorem ordering_then_swap (o p : Ordering) : (o.then p).swap = o.swap.then p.swap := by
  cases o <;> cases p <;> rfl

theorem ordering_then_ne_gt {o p : Ordering} :
    o.then p ≠ .gt ↔ o = .lt ∨ (o = .eq ∧ p ≠ .gt) := by
  cases o <;> cases p <;> decide

theorem ordering_then_eq_lt {o p : Ordering} :
    o.then p = .lt ↔ o = .lt ∨ (o = .eq ∧ p = .lt) := by
  cases o <;> cases p <;> decide

theorem lexPadCompare_unfold (a b : List Nat) :
    lexPadCompare a b =
      (natCompare (a.getD 0 0) (b.getD 0 0)).then (lexPadCompare a.tail b.tail) := by
  match a, b with
  | [], [] => rfl
  | [], y :: ys => rfl
  | x :: xs, [] => rfl
  | x :: xs, y :: ys => rfl

theorem lexPadCompare_refl (a : List Nat) : lexPadCompare a a = .eq := by
  induction a with
  | nil => rfl
  | cons x xs ih => simp [lexPadCompare, natCompare_self, ih, Ordering.then]

theorem lexPadZero_swap (b : List Nat) :
    lexPadZero b = (lexPadCompare b []).swap := by
  induction b with
  | nil => rfl
  | cons y ys ih =>
    simp only [lexPadZero, lexPadCompare, ordering_then_swap, ← natCompare_swap,
      List.getD_nil, List.tail_nil, ih, Ordering.swap_swap]

theorem lexPadCompare_swap (a : List Nat) : ∀ b : List Nat,
    lexPadCompare a b = (lexPadCompare b a).swap := by
  induction a with
  | nil =>
    intro b
    exact lexPadZero_swap b
  | cons x xs ih =>
    intro b
    cases b with
    | nil =>
      simp only [lexPadCompare, lexPadZero, ordering_then_swap, ← natCompare_swap,
        List.getD_nil, List.tail_nil, ih [], Ordering.swap_swap]
    | cons y ys =>
      simp only [lexPadCompare, ordering_then_swap, ← natCompare_swap,
        List.getD_cons_zero, List.tail_cons, ih ys]

theorem tail_length_sub (l : List Nat) : l.tail.length = l.length - 1 := by
  cases l <;> simp

theorem lexPadCompare_le_trans : ∀ n a b c, a.length + b.length + c.length ≤ n →
    lexPadCompare a b ≠ .gt → lexPadCompare b c ≠ .gt → lexPadCompare a c ≠ .gt := by
  intro n
  induction n with
  | zero =>
    intro a b c hlen _ _
    have ha : a = [] := by cases a <;> simp_all
    have hc : c = [] := by cases c <;> simp_all
    rw [ha, hc]
    decide
  | succ n ih =>
    intro a b c hlen h1 h2
    by_cases hall : a = [] ∧ b = [] ∧ c = []
    · rw [hall.1, hall.2.2]
      decide
    · have hpos : 0 < a.length + b.length + c.length := by
        by_contra hz
        exact hall ⟨List.length_eq_zero.mp (by omega), List.length_eq_zero.mp (by omega),
          List.length_eq_zero.mp (by omega)⟩
      have hlen' : a.tail.length + b.tail.length + c.tail.length ≤ n := by
        rw [tail_length_sub, tail_length_sub, tail_length_sub]
        omega
      rw [lexPadCompare_unfold] at h1 h2 ⊢
      rw [ordering_then_ne_gt] at h1 h2 ⊢
      rcases h1 with h1 | ⟨h1e, h1t⟩
      · rcases h2 with h2 | ⟨h2e, h2t⟩
        · left
          rw [natCompare_eq_lt] at h1 h2 ⊢
          omega
        · left
          rw [natCompare_eq_lt] at h1 ⊢
          rw [natCompare_eq_eq] at h2e
          omega
      · rcases h2 with h2 | ⟨h2e, h2t⟩
        · left
          rw [natCompare_eq_lt] at h2 ⊢
          rw [natCompare_eq_eq] at h1e
          omega
        · right
          rw [natCompare_eq_eq] at h1e h2e ⊢
          exact ⟨by omega, ih a.tail b.tail c.tail hlen' h1t h2t⟩

theorem lexPadCompare_lt_of_lt_of_le : ∀ n a b c, a.length + b.length + c.length ≤ n →
    lexPadCompare a b = .lt → lexPadCompare b c ≠ .gt → lexPadCompare a c = .lt := by
  intro n
  induction n with
  | zero =>
    intro a b c hlen h1 _
    have ha : a = [] := by cases a <;> simp_all
    have hb : b = [] := by cases b <;> simp_all
    rw [ha, hb] at h1
    exact absurd h1 (by decide)
  | succ n ih =>
    intro a b c hlen h1 h2
    have hab : ¬ (a = [] ∧ b = []) := by
      rintro ⟨rfl, rfl⟩
      rw [show lexPadCompare ([] : List Nat) [] = .eq from rfl] at h1
      exact absurd h1 (by decide)
    have hpos : 0 < a.length + b.length := by
      by_contra hz
      exact hab ⟨List.length_eq_zero.mp (by omega), List.length_eq_zero.mp (by omega)⟩
    have hlen' : a.tail.length + b.tail.length + c.tail.length ≤ n := by
      rw [tail_length_sub, tail_length_sub, tail_length_sub]
      omega
    rw [lexPadCompare_unfold] at h1 h2 ⊢
    rw [ordering_then_eq_lt] at h1 ⊢
    rw [ordering_then_ne_gt] at h2
    rcases h1 with h1 | ⟨h1e, h1t⟩
    · rcases h2 with h2 | ⟨h2e, h2t⟩
      · left
        rw [natCompare_eq_lt] at h1 h2 ⊢
        omega
      · left
        rw [natCompare_eq_lt] at h1 ⊢
        rw [natCompare_eq_eq] at h2e
        omega
    · rcases h2 with h2 | ⟨h2e, h2t⟩
      · left
        rw [natCompare_eq_lt] at h2 ⊢
        rw [natCompare_eq_eq] at h1e
        omega
      · right
        rw [natCompare_eq_eq] at h1e h2e ⊢
        exact ⟨by omega, ih a.tail b.tail c.tail hlen' h1t h2t⟩

theorem getD_tail (l : List Nat) (i : Nat) : l.tail.getD i 0 = l.getD (i + 1) 0 := by
  cases l with
  | nil => rfl
  | cons x xs => rfl

theorem compareSegmentsFrom_shift (as bs : List Nat) : ∀ n i,
    compareSegmentsFrom as bs n (i + 1) = compareSegmentsFrom as.tail bs.tail n i := by
  intro n
  induction n with
  | zero => intro i; rfl
  | succ n ih =>
    intro i
    simp only [compareSegmentsFrom, getD_tail]
    cases natCompare (as.getD (i + 1) 0) (bs.getD (i + 1) 0) with
    | eq => exact ih (i + 1)
    | lt => rfl
    | gt => rfl

theorem compareSegmentsFrom_eq_lexPad_of_le : ∀ (fuel : Nat) (as bs : List Nat),
    max as.length bs.length ≤ fuel →
    compareSegmentsFrom as bs fuel 0 = lexPadCompare as bs := by
  intro fuel
  induction fuel with
  | zero =>
    intro as bs hlen
    have ha : as = [] := List.length_eq_zero.mp (by omega)
    have hb : bs = [] := List.length_eq_zero.mp (by omega)
    rw [ha, hb]
    rfl
  | succ n ih =>
    intro as bs hlen
    rw [lexPadCompare_unfold as bs]
    have hlen' : max as.tail.length bs.tail.length ≤ n := by
      rw [tail_length_sub, tail_length_sub]
      omega
    have hshift : compareSegmentsFrom as bs n (0 + 1) =
        compareSegmentsFrom as.tail bs.tail n 0 := compareSegmentsFrom_shift as bs n 0
    simp only [compareSegmentsFrom]
    cases natCompare (as.getD 0 0) (bs.getD 0 0) with
    | eq =>
      rw [hshift, ih as.tail bs.tail hlen']
      simp [Ordering.then]
    | lt => rfl
    | gt => rfl

theorem compareSegmentsFrom_eq_lexPad (as bs : List Nat) :
    compareSegmentsFrom as bs (max as.length bs.length) 0 = lexPadCompare as bs :=
  compareSegmentsFrom_eq_lexPad_of_le _ as bs le_rfl

namespace ForgeClient

/-- The segment parser of `compare_version_strings` (forge.rs lines
169–173): split on `.`, keep the `u32`-parseable segments. -/
def parse_version (v : RStr) : List Nat :=
  (splitOnChar '.' v).filterMap parseU32

/-- Embedding of `ForgeClient::compare_version_strings` (forge.rs lines 168–189). -/
def compare_version_strings (a b : RStr) : Ordering :=
  compareSegmentsFrom (parse_version a) (parse_version b)
    (max (parse_version a).length (parse_version b).length) 0

end ForgeClient

namespace ForgeCompatClient

/-- Rust `v.trim_start_matches("1.")`: repeatedly strip a leading `"1."`. -/
def trim_start_matches_1 : RStr → RStr
  | '1' :: '.' :: rest => trim_start_matches_1 rest
  | s => s

/-- The segment parser of `ForgeCompatClient::compare_versions`
(forge_compat.rs lines 155–160): strip leading `"1."`s, split on `.`,
keep the `u32`-parseable segments. -/
def parse (v : RStr) : List Nat :=
  (splitOnChar '.' (trim_start_matches_1 v)).filterMap parseU32

/-- Embedding of `ForgeCompatClient::compare_versions` (forge_compat.rs lines 154–176). -/
def compare_versions (a b : RStr) : Ordering :=
  compareSegmentsFrom (parse a) (parse b)
    (max (parse a).length (parse b).length) 0

end ForgeCompatClient

theorem parseU32_of_digits {p : RStr} (h1 : p ≠ []) (h2 : p.all Char.isDigit = true)
    (h3 : digitsVal p < 2 ^ 32) : parseU32 p = some (digitsVal p) := by
  have hhead : p.head? ≠ some '+' := by
    cases p with
    | nil => simp
    | cons c cs =>
      simp only [List.head?_cons] at *
      intro hc
      have hc' : c = '+' := by injection hc
      rw [hc'] at h2
      simp [List.all_cons] at h2
  rw [parseU32]
  simp only [if_neg hhead]
  rw [if_pos ⟨h1, h2, h3⟩]

theorem filterMap_parseU32_eq_map {L : List RStr}
    (h : ∀ p ∈ L, parseU32 p = some (digitsVal p)) :
    L.filterMap parseU32 = L.map digitsVal := by
  induction L with
  | nil => rfl
  | cons p ps ih =>
    rw [List.filterMap_cons, List.map_cons, h p (by simp),
      ih (fun q hq => h q (by simp [hq]))]

theorem parse_version_of_numeric {v : RStr} (h : SegsNumericU32 v) :
    ForgeClient.parse_version v = specSegVals v := by
  rw [ForgeClient.parse_version, specSegVals]
  exact filterMap_parseU32_eq_map
    (fun p hp => parseU32_of_digits (h p hp).1 (h p hp).2.1 (h p hp).2.2)

/-- Counterexample to claim C5: the compat revision of the comparison is not
the claimed segment-wise numeric comparison: it first strips every leading
`"1."`, so `compare_versions("1.1.0", "1.0.5")` compares `[0]` against
`[0, 5]` and returns `Less`, while the segment-wise numeric comparison of
`1.1.0` and `1.0.5` is `Greater`. -/
theorem C5_counterexample :
    ForgeCompatClient.compare_versions (rs "1.1.0") (rs "1.0.5") = .lt ∧
    lexPadCompare (specSegVals (rs "1.1.0")) (specSegVals (rs "1.0.5")) = .gt := by
  constructor
  · decide
  · decide

/-- Claim C5 as amended: `ForgeClient::compare_version_strings` on version
strings whose dot segments are all numeric and fit in a `u32` is exactly
the zero-padded segment-wise lexicographic comparison of the segment
values, and unconditionally satisfies the total-order laws (reflexivity,
antisymmetry under swap, transitivity); `compare("1.20.10","1.20.9") =
Greater` and `compare("1.21","1.21.0") = Equal`;
`ForgeCompatClient::compare_versions` computes the same comparison applied
after stripping every leading `"1."` from each input (and therefore
disagrees with plain segment-wise comparison on inputs with repeated
leading `1` segments, see the counterexample). -/
theorem C5_version_compare_total_order :
    (∀ a b : RStr, SegsNumericU32 a → SegsNumericU32 b →
      ForgeClient.compare_version_strings a b =
        lexPadCompare (specSegVals a) (specSegVals b)) ∧
    (∀ a : RStr, ForgeClient.compare_version_strings a a = .eq) ∧
    (∀ a b : RStr, ForgeClient.compare_version_strings a b =
      (ForgeClient.compare_version_strings b a).swap) ∧
    (∀ a b c : RStr, ForgeClient.compare_version_strings a b ≠ .gt →
      ForgeClient.compare_version_strings b c ≠ .gt →
      ForgeClient.compare_version_strings a c ≠ .gt) ∧
    ForgeClient.compare_version_strings (rs "1.20.10") (rs "1.20.9") = .gt ∧
    ForgeClient.compare_version_strings (rs "1.21") (rs "1.21.0") = .eq ∧
    (∀ a b : RStr, ForgeCompatClient.compare_versions a b =
      ForgeClient.compare_version_strings
        (ForgeCompatClient.trim_start_matches_1 a)
        (ForgeCompatClient.trim_start_matches_1 b)) := by
  refine ⟨?_, ?_, ?_, ?_, by decide, by decide, fun a b => rfl⟩
  · intro a b ha hb
    rw [ForgeClient.compare_version_strings, compareSegmentsFrom_eq_lexPad,
      parse_version_of_numeric ha, parse_version_of_numeric hb]
  · intro a
    rw [ForgeClient.compare_version_strings, compareSegmentsFrom_eq_lexPad,
      lexPadCompare_refl]
  · intro a b
    rw [ForgeClient.compare_version_strings, ForgeClient.compare_version_strings,
      compareSegmentsFrom_eq_lexPad, compareSegmentsFrom_eq_lexPad,
      lexPadCompare_swap]
  · intro a b c h1 h2
    rw [ForgeClient.compare_version_strings, compareSegmentsFrom_eq_lexPad] at h1 h2 ⊢
    exact lexPadCompare_le_trans
      ((ForgeClient.parse_version a).length + (ForgeClient.parse_version b).length +
        (ForgeClient.parse_version c).length) _ _ _ le_rfl h1 h2

/-- Witness for `C5_version_compare_total_order`: the numeric-segment
hypotheses and the transitivity hypotheses discharged at concrete
versions. -/
theorem C5_witness :
    ForgeClient.compare_version_strings (rs "1.20.10") (rs "1.20.9") =
      lexPadCompare (specSegVals (rs "1.20.10")) (specSegVals (rs "1.20.9")) ∧
    ForgeClient.compare_version_strings (rs "1.19.4") (rs "1.21.0") ≠ .gt :=
  ⟨C5_version_compare_total_order.1 (rs "1.20.10") (rs "1.20.9") (by decide) (by decide),
   C5_version_compare_total_order.2.2.2.1 (rs "1.19.4") (rs "1.20.1") (rs "1.21.0")
     (by decide) (by decide)⟩

/-! ## Recommended loader (`ForgeCompatClient::get_recommended_loader`,
forge_compat.rs lines 58–69) -/

/-- The two Forge-family loaders of the compatibility façade. -/
inductive LoaderType where
  | Forge
  | NeoForge
  deriving DecidableEq

namespace ForgeCompatClient

/-- Embedding of `ForgeCompatClient::get_recommended_loader` (forge_compat.rs lines
58–69): NeoForge whenever the version is not below `1.21.0`, else NeoForge
whenever it is not below `1.20.1`, else Forge. -/
def get_recommended_loader (minecraft_version : RStr) : LoaderType :=
  if compare_versions minecraft_version (rs "1.21.0") ≠ .lt then .NeoForge
  else if compare_versions minecraft_version (rs "1.20.1") ≠ .lt then .NeoForge
  else .Forge

/-- Fact: `trim_start_matches_1` leaves a string that does not start with `"1."`
unchanged. -/
theorem trim_start_matches_1_of_not_starting_one {w : RStr}
    (h : List.isPrefixOf (rs "1.") w = false) : trim_start_matches_1 w = w := by
  match w with
  | [] => rfl
  | [a] =>
    unfold trim_start_matches_1
    split
    · rename_i heq
      injection heq with h1 h2
      exact absurd h2 (by simp)
    · rfl
  | a :: b :: t =>
    unfold trim_start_matches_1
    split
    · rename_i heq
      injection heq with h1 h2
      injection h2 with h2 h3
      subst h1
      subst h2
      have hval : List.isPrefixOf (rs "1.") ('1' :: '.' :: t) = true := by
        simp [rs, List.isPrefixOf]
      rw [hval] at h
      exact Bool.noConfusion h
    · rfl

end ForgeCompatClient

/-- Counterexample to claim C8: the recommendation is not "NeoForge exactly when
the game version is ≥ 1.20.1 in dotted-numeric order": `"2.0"` is greater
than `"1.20.1"` segment-wise, yet the façade recommends Forge for it
(its comparison first strips leading `"1."` occurrences, mapping `"2.0"`
to `[2,0]` against `[20,1]`). -/
theorem C8_counterexample :
    ForgeCompatClient.get_recommended_loader (rs "2.0") = .Forge ∧
    lexPadCompare (specSegVals (rs "2.0")) (specSegVals (rs "1.20.1")) = .gt := by
  constructor
  · decide
  · decide

/-- Claim C8 as amended: the recommendation is a pure function of the game
version string: it returns NeoForge exactly when the façade's own
comparison does not place the version below `1.20.1`, and Forge exactly
otherwise; for game versions of the shape `1.minor[.patch]` with numeric
segments whose tail does not itself start with `"1."`, this coincides with
segment-wise numeric order against `1.20.1`; in particular `"1.19.4"`
gets Forge and `"1.21.0"` gets NeoForge. -/
theorem C8_recommended_loader :
    (∀ v : RStr, ForgeCompatClient.get_recommended_loader v = .NeoForge ↔
      ForgeCompatClient.compare_versions v (rs "1.20.1") ≠ .lt) ∧
    (∀ v : RStr, ForgeCompatClient.get_recommended_loader v = .Forge ↔
      ForgeCompatClient.compare_versions v (rs "1.20.1") = .lt) ∧
    (∀ w : RStr, SegsNumericU32 ('1' :: '.' :: w) →
      List.isPrefixOf (rs "1.") w = false →
      (ForgeCompatClient.get_recommended_loader ('1' :: '.' :: w) = .NeoForge ↔
        lexPadCompare (specSegVals ('1' :: '.' :: w))
          (specSegVals (rs "1.20.1")) ≠ .lt)) ∧
    ForgeCompatClient.get_recommended_loader (rs "1.19.4") = .Forge ∧
    ForgeCompatClient.get_recommended_loader (rs "1.21.0") = .NeoForge := by
  have hcmp : ∀ v t : RStr, ForgeCompatClient.compare_versions v t =
      lexPadCompare (ForgeCompatClient.parse v) (ForgeCompatClient.parse t) := by
    intro v t
    rw [ForgeCompatClient.compare_versions, compareSegmentsFrom_eq_lexPad]
  have hmono : ∀ v : RStr, ForgeCompatClient.compare_versions v (rs "1.21.0") ≠ .lt →
      ForgeCompatClient.compare_versions v (rs "1.20.1") ≠ .lt := by
    intro v h hlt
    rw [hcmp, show ForgeCompatClient.parse (rs "1.21.0") = [21, 0] from by decide] at h
    rw [hcmp, show ForgeCompatClient.parse (rs "1.20.1") = [20, 1] from by decide] at hlt
    refine h (lexPadCompare_lt_of_lt_of_le
      ((ForgeCompatClient.parse v).length + 4) (ForgeCompatClient.parse v)
      [20, 1] [21, 0] (by simp) hlt (by decide))
  have hiff : ∀ v : RStr, ForgeCompatClient.get_recommended_loader v = .NeoForge ↔
      ForgeCompatClient.compare_versions v (rs "1.20.1") ≠ .lt := by
    intro v
    rw [ForgeCompatClient.get_recommended_loader]
    by_cases h21 : ForgeCompatClient.compare_versions v (rs "1.21.0") ≠ .lt
    · rw [if_pos h21]
      exact ⟨fun _ => hmono v h21, fun _ => rfl⟩
    · rw [if_neg h21]
      by_cases h20 : ForgeCompatClient.compare_versions v (rs "1.20.1") ≠ .lt
      · rw [if_pos h20]
        exact ⟨fun _ => h20, fun _ => rfl⟩
      · rw [if_neg h20]
        exact ⟨fun h => absurd h (by decide), fun h => absurd h h20⟩
  refine ⟨hiff, ?_, ?_, by decide, by decide⟩
  · intro v
    by_cases h20 : ForgeCompatClient.compare_versions v (rs "1.20.1") ≠ .lt
    · constructor
      · intro h
        have := (hiff v).mpr h20
        rw [h] at this
        exact absurd this (by decide)
      · intro h
        exact absurd h h20
    · constructor
      · intro _
        by_contra hne
        exact hne (by_contra fun hne2 => h20 (fun hlt => hne2 (absurd hlt (by
          intro hlt2
          exact hne (hlt2 ▸ rfl)))))
      · intro _
        cases hrec : ForgeCompatClient.get_recommended_loader v with
        | Forge => rfl
        | NeoForge => exact absurd ((hiff v).mp hrec) h20
  · intro w hnum hpre
    have htrim : ForgeCompatClient.trim_start_matches_1 ('1' :: '.' :: w) = w := by
      rw [show ForgeCompatClient.trim_start_matches_1 ('1' :: '.' :: w) =
        ForgeCompatClient.trim_start_matches_1 w from rfl]
      exact ForgeCompatClient.trim_start_matches_1_of_not_starting_one hpre
    have hsplitv : splitOnChar '.' ('1' :: '.' :: w) = rs "1" :: splitOnChar '.' w := by
      rw [show ('1' :: '.' :: w : RStr) = rs "1" ++ '.' :: w from rfl,
        splitOnChar_append_cons w (by decide)]
    have hnumw : SegsNumericU32 w := by
      intro p hp
      exact hnum p (by rw [hsplitv]; simp [hp])
    have hparsev : ForgeCompatClient.parse ('1' :: '.' :: w) = specSegVals w := by
      rw [ForgeCompatClient.parse, htrim, specSegVals]
      exact filterMap_parseU32_eq_map
        (fun p hp => parseU32_of_digits (hnumw p hp).1 (hnumw p hp).2.1 (hnumw p hp).2.2)
    have hspecv : specSegVals ('1' :: '.' :: w) = 1 :: specSegVals w := by
      rw [specSegVals, hsplitv, List.map_cons]
      rfl
    rw [hiff ('1' :: '.' :: w), hcmp, hparsev,
      show ForgeCompatClient.parse (rs "1.20.1") = [20, 1] from by decide,
      hspecv, show specSegVals (rs "1.20.1") = [1, 20, 1] from by decide,
      show lexPadCompare (1 :: specSegVals w) [1, 20, 1] =
        (natCompare 1 1).then (lexPadCompare (specSegVals w) [20, 1]) from rfl,
      natCompare_self]
    rw [show Ordering.eq.then (lexPadCompare (specSegVals w) [20, 1]) =
      lexPadCompare (specSegVals w) [20, 1] from rfl]

/-- Witness for `C8_recommended_loader`: the numeric bridging conjunct
discharged at game version `1.21.0` (tail `"21.0"`). -/
theorem C8_witness :
    ForgeCompatClient.get_recommended_loader ('1' :: '.' :: rs "21.0") = .NeoForge ↔
      lexPadCompare (specSegVals ('1' :: '.' :: rs "21.0"))
        (specSegVals (rs "1.20.1")) ≠ .lt :=
  C8_recommended_loader.2.2.1 (rs "21.0") (by decide) (by decide)

/-! ## The `--userType` argument (`launch_neoforge_or_forge`, mod.rs lines
351–361, and `launch_standard`, mod.rs lines 429–439)

Both launch paths compute `token = access_token.unwrap_or("0")` and
`user_type = if access_token.is_some() && token != "0" { "msa" } else
{ "legacy" }` and append `--userType user_type` as the final pair of the
argument vector. -/

/-- A `Nat` formatted in decimal, as `format!("{}")` renders a `u32`. -/
def natToRStr (n : Nat) : RStr := (Nat.repr n).data

/-- The mod-loader choice (`src/types/version.rs`). -/
inductive ModLoader where
  | Vanilla
  | Fabric
  | Quilt
  | Forge
  | NeoForge
  deriving DecidableEq

namespace MinecraftLauncher

/-- The `userType` value both launch paths compute (mod.rs lines 351–352
and 429–430). -/
def user_type (access_token : Option RStr) : RStr :=
  if access_token.isSome ∧ access_token.getD (rs "0") ≠ rs "0" then rs "msa"
  else rs "legacy"

/-- The universal trailing game arguments (mod.rs lines 354–361 and
432–439). -/
def universal_game_args (username version gameDir assetsDir assetIndex uuid : RStr)
    (access_token : Option RStr) : List RStr :=
  [rs "--username", username, rs "--version", version, rs "--gameDir", gameDir,
   rs "--assetsDir", assetsDir, rs "--assetIndex", assetIndex, rs "--uuid", uuid,
   rs "--accessToken", access_token.getD (rs "0"), rs "--userType",
   user_type access_token]

/-- The argument vector (after the `java` executable) built by
`launch_neoforge_or_forge` (mod.rs lines 290–361). -/
def forge_launch_argv (memory_mb : Nat) (natives_dir : RStr) (jvm_args : List RStr)
    (module_path : List RStr) (combined_cp main_class : RStr) (game_args : List RStr)
    (username version gameDir assetsDir assetIndex uuid : RStr)
    (access_token : Option RStr) : List RStr :=
  [rs "-Xmx" ++ natToRStr memory_mb ++ rs "M",
   rs "-Xms" ++ natToRStr (memory_mb / 2) ++ rs "M",
   rs "-Djava.library.path=" ++ natives_dir,
   rs "-XX:+UseG1GC", rs "-XX:+UnlockExperimentalVMOptions",
   rs "-XX:G1NewSizePercent=20", rs "-XX:G1ReservePercent=20",
   rs "-XX:MaxGCPauseMillis=50", rs "-XX:G1HeapRegionSize=32M"] ++
  jvm_args ++
  (if module_path.isEmpty then []
   else [rs "-p", intercalateChar ':' module_path,
         rs "--add-modules", rs "ALL-MODULE-PATH"]) ++
  [rs "-cp", combined_cp, main_class] ++
  game_args ++
  (if (strContains main_class (rs "BootstrapLauncher") ||
       strContains main_class (rs "modlauncher")) &&
      !(game_args.any fun arg => strContains arg (rs "launchTarget"))
   then [rs "--launchTarget", rs "forgeclient"] else []) ++
  universal_game_args username version gameDir assetsDir assetIndex uuid access_token

/-- The loader-specific JVM flag of `launch_standard` (mod.rs lines
416–424). -/
def standard_loader_flag (loader : ModLoader) (clientJar : RStr) : List RStr :=
  match loader with
  | .Fabric => [rs "-Dfabric.gameJarPath=" ++ clientJar]
  | .Quilt => [rs "-Dquilt.gameJarPath=" ++ clientJar]
  | _ => []

/-- The argument vector (after the `java` executable) built by
`launch_standard` (mod.rs lines 404–439). -/
def standard_launch_argv (memory_mb : Nat) (natives_dir : RStr) (loader : ModLoader)
    (clientJar classpath main_class : RStr)
    (username version gameDir assetsDir assetIndex uuid : RStr)
    (access_token : Option RStr) : List RStr :=
  [rs "-Xmx" ++ natToRStr memory_mb ++ rs "M",
   rs "-Xms" ++ natToRStr (memory_mb / 2) ++ rs "M",
   rs "-Djava.library.path=" ++ natives_dir,
   rs "-XX:+UseG1GC"] ++
  standard_loader_flag loader clientJar ++
  [rs "-cp", classpath, main_class] ++
  universal_game_args username version gameDir assetsDir assetIndex uuid access_token

end MinecraftLauncher

theorem getElem?_append_pair {flag val : RStr} (hv : val ≠ flag) :
    ∀ (pre : List RStr), flag ∉ pre →
    ∀ i, (pre ++ [flag, val])[i]? = some flag → (pre ++ [flag, val])[i + 1]? = some val := by
  intro pre
  induction pre with
  | nil =>
    intro _ i hi
    match i with
    | 0 => rfl
    | 1 =>
      simp at hi
      exact absurd hi hv
    | n + 2 => simp at hi
  | cons p ps ih =>
    intro hp i hi
    rw [List.mem_cons, not_or] at hp
    match i with
    | 0 =>
      simp at hi
      exact absurd hi.symm hp.1
    | n + 1 =>
      rw [List.cons_append, List.getElem?_cons_succ] at hi ⊢
      exact ih hp.2 n hi

theorem append_pair_eq_concat (l : List RStr) (f v : RStr) :
    l ++ [f, v] = (l ++ [f]) ++ [v] := by
  simp

theorem isPrefixOf_append_self (p t : RStr) : List.isPrefixOf p (p ++ t) = true := by
  induction p with
  | nil => simp [List.isPrefixOf]
  | cons c cs ih => simp [List.isPrefixOf, ih]

theorem ne_append_of_not_isPrefixOf {s p t : RStr}
    (hne : List.isPrefixOf p s = false) : s ≠ p ++ t := by
  intro h
  rw [h, isPrefixOf_append_self] at hne
  exact Bool.noConfusion hne

/-- Claim C9: in the argument vector of a spawned game process the value
following `--userType` is `"msa"` exactly when an access token was
supplied and differs from the placeholder `"0"`, else `"legacy"` — on the
Forge/NeoForge path and on the standard Fabric/Quilt/Vanilla path alike;
moreover the `--userType value` pair is the final pair of the vector on
both paths.  (The hypotheses exclude the degenerate launches in which a
caller-supplied value is itself the literal string `--userType`.) -/
theorem C9_userType_value :
    (∀ access_token : Option RStr,
      (MinecraftLauncher.user_type access_token = rs "msa" ↔
        ∃ t, access_token = some t ∧ t ≠ rs "0") ∧
      (MinecraftLauncher.user_type access_token = rs "msa" ∨
       MinecraftLauncher.user_type access_token = rs "legacy")) ∧
    (∀ (memory_mb : Nat) (natives_dir : RStr) (jvm_args module_path : List RStr)
       (combined_cp main_class : RStr) (game_args : List RStr)
       (username version gameDir assetsDir assetIndex uuid : RStr)
       (access_token : Option RStr),
      rs "--userType" ∉ jvm_args →
      rs "--userType" ∉ game_args →
      rs "--userType" ∉ [intercalateChar ':' module_path, combined_cp, main_class,
        username, version, gameDir, assetsDir, assetIndex, uuid,
        access_token.getD (rs "0")] →
      (∀ i, (MinecraftLauncher.forge_launch_argv memory_mb natives_dir jvm_args
          module_path combined_cp main_class game_args username version gameDir
          assetsDir assetIndex uuid access_token)[i]? = some (rs "--userType") →
        (MinecraftLauncher.forge_launch_argv memory_mb natives_dir jvm_args
          module_path combined_cp main_class game_args username version gameDir
          assetsDir assetIndex uuid access_token)[i + 1]? =
          some (MinecraftLauncher.user_type access_token)) ∧
      (MinecraftLauncher.forge_launch_argv memory_mb natives_dir jvm_args
          module_path combined_cp main_class game_args username version gameDir
          assetsDir assetIndex uuid access_token).getLast? =
        some (MinecraftLauncher.user_type access_token) ∧
      (MinecraftLauncher.forge_launch_argv memory_mb natives_dir jvm_args
          module_path combined_cp main_class game_args username version gameDir
          assetsDir assetIndex uuid access_token).dropLast.getLast? =
        some (rs "--userType")) ∧
    (∀ (memory_mb : Nat) (natives_dir : RStr) (loader : ModLoader)
       (clientJar classpath main_class : RStr)
       (username version gameDir assetsDir assetIndex uuid : RStr)
       (access_token : Option RStr),
      rs "--userType" ∉ [classpath, main_class, username, version, gameDir,
        assetsDir, assetIndex, uuid, access_token.getD (rs "0")] →
      (∀ i, (MinecraftLauncher.standard_launch_argv memory_mb natives_dir loader
          clientJar classpath main_class username version gameDir assetsDir
          assetIndex uuid access_token)[i]? = some (rs "--userType") →
        (MinecraftLauncher.standard_launch_argv memory_mb natives_dir loader
          clientJar classpath main_class username version gameDir assetsDir
          assetIndex uuid access_token)[i + 1]? =
          some (MinecraftLauncher.user_type access_token)) ∧
      (MinecraftLauncher.standard_launch_argv memory_mb natives_dir loader
          clientJar classpath main_class username version gameDir assetsDir
          assetIndex uuid access_token).getLast? =
        some (MinecraftLauncher.user_type access_token) ∧
      (MinecraftLauncher.standard_launch_argv memory_mb natives_dir loader
          clientJar classpath main_class username version gameDir assetsDir
          assetIndex uuid access_token).dropLast.getLast? =
        some (rs "--userType")) := by
  have hval_ne : ∀ access_token : Option RStr,
      MinecraftLauncher.user_type access_token ≠ rs "--userType" := by
    intro access_token
    unfold MinecraftLauncher.user_type
    split
    · decide
    · decide
  refine ⟨?_, ?_, ?_⟩
  · intro access_token
    constructor
    · unfold MinecraftLauncher.user_type
      split
      · rename_i h
        cases access_token with
        | none => simp at h
        | some t =>
          simp only [Option.getD_some] at h
          exact ⟨fun _ => ⟨t, rfl, h.2⟩, fun _ => rfl⟩
      · rename_i h
        constructor
        · intro hh
          exact absurd hh (by decide)
        · rintro ⟨t, rfl, ht⟩
          exact absurd ⟨by simp, by simpa using ht⟩ h
    · unfold MinecraftLauncher.user_type
      split
      · left
        rfl
      · right
        rfl
  · intro memory_mb natives_dir jvm_args module_path combined_cp main_class game_args
      username version gameDir assetsDir assetIndex uuid access_token h1 h2 h3
    simp only [List.mem_cons, List.not_mem_nil, not_or, or_false] at h3
    have hform : MinecraftLauncher.forge_launch_argv memory_mb natives_dir jvm_args
        module_path combined_cp main_class game_args username version gameDir
        assetsDir assetIndex uuid access_token =
      ([rs "-Xmx" ++ natToRStr memory_mb ++ rs "M",
        rs "-Xms" ++ natToRStr (memory_mb / 2) ++ rs "M",
        rs "-Djava.library.path=" ++ natives_dir,
        rs "-XX:+UseG1GC", rs "-XX:+UnlockExperimentalVMOptions",
        rs "-XX:G1NewSizePercent=20", rs "-XX:G1ReservePercent=20",
        rs "-XX:MaxGCPauseMillis=50", rs "-XX:G1HeapRegionSize=32M"] ++
       (jvm_args ++
        ((if module_path.isEmpty then []
          else [rs "-p", intercalateChar ':' module_path,
                rs "--add-modules", rs "ALL-MODULE-PATH"]) ++
         ([rs "-cp", combined_cp, main_class] ++
          (game_args ++
           ((if (strContains main_class (rs "BootstrapLauncher") ||
                 strContains main_class (rs "modlauncher")) &&
                !(game_args.any fun arg => strContains arg (rs "launchTarget"))
             then [rs "--launchTarget", rs "forgeclient"] else []) ++
            [rs "--username", username, rs "--version", version,
             rs "--gameDir", gameDir, rs "--assetsDir", assetsDir,
             rs "--assetIndex", assetIndex, rs "--uuid", uuid,
             rs "--accessToken", access_token.getD (rs "0")])))))) ++
      [rs "--userType", MinecraftLauncher.user_type access_token] := by
      simp only [MinecraftLauncher.forge_launch_argv,
        MinecraftLauncher.universal_game_args, List.append_assoc, List.cons_append,
        List.nil_append]
    have hpre : rs "--userType" ∉
        ([rs "-Xmx" ++ natToRStr memory_mb ++ rs "M",
          rs "-Xms" ++ natToRStr (memory_mb / 2) ++ rs "M",
          rs "-Djava.library.path=" ++ natives_dir,
          rs "-XX:+UseG1GC", rs "-XX:+UnlockExperimentalVMOptions",
          rs "-XX:G1NewSizePercent=20", rs "-XX:G1ReservePercent=20",
          rs "-XX:MaxGCPauseMillis=50", rs "-XX:G1HeapRegionSize=32M"] ++
         (jvm_args ++
          ((if module_path.isEmpty then []
            else [rs "-p", intercalateChar ':' module_path,
                  rs "--add-modules", rs "ALL-MODULE-PATH"]) ++
           ([rs "-cp", combined_cp, main_class] ++
            (game_args ++
             ((if (strContains main_class (rs "BootstrapLauncher") ||
                   strContains main_class (rs "modlauncher")) &&
                  !(game_args.any fun arg => strContains arg (rs "launchTarget"))
               then [rs "--launchTarget", rs "forgeclient"] else []) ++
              [rs "--username", username, rs "--version", version,
               rs "--gameDir", gameDir, rs "--assetsDir", assetsDir,
               rs "--assetIndex", assetIndex, rs "--uuid", uuid,
               rs "--accessToken", access_token.getD (rs "0")])))))) := by
      intro hmem
      simp only [List.mem_append] at hmem
      rcases hmem with h | h | h | h | h | h | h
      · simp only [List.mem_cons, List.not_mem_nil, not_or, or_false] at h
        rcases h with h | h | h | h | h | h | h | h | h
        · rw [List.append_assoc] at h
          exact ne_append_of_not_isPrefixOf (by decide) h
        · rw [List.append_assoc] at h
          exact ne_append_of_not_isPrefixOf (by decide) h
        · exact ne_append_of_not_isPrefixOf (by decide) h
        · exact absurd h (by decide)
        · exact absurd h (by decide)
        · exact absurd h (by decide)
        · exact absurd h (by decide)
        · exact absurd h (by decide)
        · exact absurd h (by decide)
      · exact h1 h
      · split at h
        · simp at h
        · simp only [List.mem_cons, List.not_mem_nil, not_or, or_false] at h
          rcases h with h | h | h | h
          · exact absurd h (by decide)
          · exact h3.1 h
          · exact absurd h (by decide)
          · exact absurd h (by decide)
      · simp only [List.mem_cons, List.not_mem_nil, not_or, or_false] at h
        rcases h with h | h | h
        · exact absurd h (by decide)
        · exact h3.2.1 h
        · exact h3.2.2.1 h
      · exact h2 h
      · split at h
        · simp only [List.mem_cons, List.not_mem_nil, not_or, or_false] at h
          rcases h with h | h
          · exact absurd h (by decide)
          · exact absurd h (by decide)
        · simp at h
      · simp only [List.mem_cons, List.not_mem_nil, not_or, or_false] at h
        rcases h with h | h | h | h | h | h | h | h | h | h | h | h | h | h
        · exact absurd h (by decide)
        · exact h3.2.2.2.1 h
        · exact absurd h (by decide)
        · exact h3.2.2.2.2.1 h
        · exact absurd h (by decide)
        · exact h3.2.2.2.2.2.1 h
        · exact absurd h (by decide)
        · exact h3.2.2.2.2.2.2.1 h
        · exact absurd h (by decide)
        · exact h3.2.2.2.2.2.2.2.1 h
        · exact absurd h (by decide)
        · exact h3.2.2.2.2.2.2.2.2.1 h
        · exact absurd h (by decide)
        · exact h3.2.2.2.2.2.2.2.2.2 h
    refine ⟨?_, ?_, ?_⟩
    · intro i hi
      rw [hform] at hi ⊢
      exact getElem?_append_pair (hval_ne access_token) _ hpre i hi
    · rw [hform, append_pair_eq_concat, List.getLast?_concat]
    · rw [hform, append_pair_eq_concat, List.dropLast_concat, List.getLast?_concat]
  · intro memory_mb natives_dir loader clientJar classpath main_class
      username version gameDir assetsDir assetIndex uuid access_token h3
    simp only [List.mem_cons, List.not_mem_nil, not_or, or_false] at h3
    have hform : MinecraftLauncher.standard_launch_argv memory_mb natives_dir loader
        clientJar classpath main_class username version gameDir assetsDir
        assetIndex uuid access_token =
      ([rs "-Xmx" ++ natToRStr memory_mb ++ rs "M",
        rs "-Xms" ++ natToRStr (memory_mb / 2) ++ rs "M",
        rs "-Djava.library.path=" ++ natives_dir,
        rs "-XX:+UseG1GC"] ++
       (MinecraftLauncher.standard_loader_flag loader clientJar ++
        ([rs "-cp", classpath, main_class] ++
         [rs "--username", username, rs "--version", version,
          rs "--gameDir", gameDir, rs "--assetsDir", assetsDir,
          rs "--assetIndex", assetIndex, rs "--uuid", uuid,
          rs "--accessToken", access_token.getD (rs "0")]))) ++
      [rs "--userType", MinecraftLauncher.user_type access_token] := by
      simp only [MinecraftLauncher.standard_launch_argv,
        MinecraftLauncher.universal_game_args, List.append_assoc, List.cons_append,
        List.nil_append]
    have hpre : rs "--userType" ∉
        ([rs "-Xmx" ++ natToRStr memory_mb ++ rs "M",
          rs "-Xms" ++ natToRStr (memory_mb / 2) ++ rs "M",
          rs "-Djava.library.path=" ++ natives_dir,
          rs "-XX:+UseG1GC"] ++
         (MinecraftLauncher.standard_loader_flag loader clientJar ++
          ([rs "-cp", classpath, main_class] ++
           [rs "--username", username, rs "--version", version,
            rs "--gameDir", gameDir, rs "--assetsDir", assetsDir,
            rs "--assetIndex", assetIndex, rs "--uuid", uuid,
            rs "--accessToken", access_token.getD (rs "0")]))) := by
      intro hmem
      simp only [List.mem_append] at hmem
      rcases hmem with h | h | h | h
      · simp only [List.mem_cons, List.not_mem_nil, not_or, or_false] at h
        rcases h with h | h | h | h
        · rw [List.append_assoc] at h
          exact ne_append_of_not_isPrefixOf (by decide) h
        · rw [List.append_assoc] at h
          exact ne_append_of_not_isPrefixOf (by decide) h
        · exact ne_append_of_not_isPrefixOf (by decide) h
        · exact absurd h (by decide)
      · unfold MinecraftLauncher.standard_loader_flag at h
        cases loader with
        | Fabric =>
          simp only [List.mem_cons, List.not_mem_nil, or_false] at h
          exact ne_append_of_not_isPrefixOf (by decide) h
        | Quilt =>
          simp only [List.mem_cons, List.not_mem_nil, or_false] at h
          exact ne_append_of_not_isPrefixOf (by decide) h
        | Vanilla => simp at h
        | Forge => simp at h
        | NeoForge => simp at h
      · simp only [List.mem_cons, List.not_mem_nil, not_or, or_false] at h
        rcases h with h | h | h
        · exact absurd h (by decide)
        · exact h3.1 h
        · exact h3.2.1 h
      · simp only [List.mem_cons, List.not_mem_nil, not_or, or_false] at h
        rcases h with h | h | h | h | h | h | h | h | h | h | h | h | h | h
        · exact absurd h (by decide)
        · exact h3.2.2.1 h
        · exact absurd h (by decide)
        · exact h3.2.2.2.1 h
        · exact absurd h (by decide)
        · exact h3.2.2.2.2.1 h
        · exact absurd h (by decide)
        · exact h3.2.2.2.2.2.1 h
        · exact absurd h (by decide)
        · exact h3.2.2.2.2.2.2.1 h
        · exact absurd h (by decide)
        · exact h3.2.2.2.2.2.2.2.1 h
        · exact absurd h (by decide)
        · exact h3.2.2.2.2.2.2.2.2 h
    refine ⟨?_, ?_, ?_⟩
    · intro i hi
      rw [hform] at hi ⊢
      exact getElem?_append_pair (hval_ne access_token) _ hpre i hi
    · rw [hform, append_pair_eq_concat, List.getLast?_concat]
    · rw [hform, append_pair_eq_concat, List.dropLast_concat, List.getLast?_concat]

/-- Witness for `C9_userType_value`: both launch paths at a concrete
launch with a real token (yielding `msa`) and, on the standard path, no
token (yielding `legacy`). -/
theorem C9_witness :
    (MinecraftLauncher.forge_launch_argv 4096 (rs "/g/natives") [] [] (rs "/cp")
        (rs "Main") [] (rs "player") (rs "1.21.1") (rs "/g") (rs "/a") (rs "17")
        (rs "uuid-1") (some (rs "tok")))[27]? =
      some (MinecraftLauncher.user_type (some (rs "tok"))) ∧
    MinecraftLauncher.user_type (some (rs "tok")) = rs "msa" ∧
    (MinecraftLauncher.standard_launch_argv 2048 (rs "/g/natives") .Vanilla
        (rs "/v/c.jar") (rs "/cp") (rs "Main") (rs "player") (rs "1.20.4")
        (rs "/g") (rs "/a") (rs "12") (rs "uuid-2") none).getLast? =
      some (MinecraftLauncher.user_type none) ∧
    MinecraftLauncher.user_type none = rs "legacy" :=
  ⟨(C9_userType_value.2.1 4096 (rs "/g/natives") [] [] (rs "/cp") (rs "Main") []
      (rs "player") (rs "1.21.1") (rs "/g") (rs "/a") (rs "17") (rs "uuid-1")
      (some (rs "tok")) (by decide) (by decide) (by decide)).1 26 (by decide),
   by decide,
   (C9_userType_value.2.2 2048 (rs "/g/natives") .Vanilla (rs "/v/c.jar") (rs "/cp")
      (rs "Main") (rs "player") (rs "1.20.4") (rs "/g") (rs "/a") (rs "12")
      (rs "uuid-2") none (by decide)).2.1,
   by decide⟩

/-! ## Library classification (`ForgeInstaller::install_forge_complete`,
`src/core/minecraft/forge.rs` lines 250–343)

Every materialized library is routed to exactly one of the module path and
the classpath.  The explicit exclusion list is checked first and forces the
library onto the classpath; otherwise a curated list of substring patterns
routes the library to the module path; everything else lands on the
classpath. -/

/-- Destination of a classified library. -/
inductive LibClass where
  | ModulePath
  | Classpath
  deriving DecidableEq, Repr

/-- The explicit exclusion test of `install_forge_complete`
(`is_explicitly_excluded`, forge.rs lines 255–258). -/
def forgeExplicitlyExcluded (name : RStr) : Bool :=
  strContains name (rs "failureaccess") ||
  strContains name (rs "listenablefuture") ||
  strContains name (rs "commons-codec") ||
  strContains name (rs "error_prone_annotations")

/-- The module-path inclusion test of `install_forge_complete`
(`is_module`, forge.rs lines 275–331), transcribed pattern for pattern. -/
def forgeIsModule (name : RStr) : Bool :=
  strContains name (rs "bootstraplauncher") ||
  strContains name (rs "bootstrap-launcher") ||
  strContains name (rs "bootstrap-api") ||
  strContains name (rs "securejarhandler") ||
  strContains name (rs "securemodules") ||
  strContains name (rs "fmlloader") ||
  strContains name (rs "modlauncher") ||
  strContains name (rs "cpw.mods") ||
  strContains name (rs "net.minecraftforge") ||
  strContains name (rs "minecraftforge") ||
  strContains name (rs "unsafe") ||
  strContains name (rs "forgespi") ||
  strContains name (rs "coremods") ||
  strContains name (rs "eventbus") ||
  strContains name (rs "mergetool") ||
  strContains name (rs "srgutils") ||
  strContains name (rs "accesstransformer") ||
  strContains name (rs "log4j") ||
  strContains name (rs "slf4j") ||
  strContains name (rs "terminalconsoleappender") ||
  strContains name (rs "nashorn") ||
  strContains name (rs "org.ow2.asm") ||
  strContains name (rs ":asm:") ||
  strContains name (rs ":asm-") ||
  strContains name (rs "mixin") ||
  strContains name (rs "guava") ||
  strContains name (rs "checker-qual") ||
  strContains name (rs "j2objc") ||
  strContains name (rs "jspecify") ||
  strContains name (rs "jopt-simple") ||
  strContains name (rs "jopt.simple") ||
  strContains name (rs "net.sf.jopt") ||
  strContains name (rs "jline") ||
  strContains name (rs "gson") ||
  strContains name (rs "commons-") ||
  strContains name (rs "httpclient") ||
  strContains name (rs "httpcore") ||
  strContains name (rs "netty") ||
  strContains name (rs "fastutil") ||
  strContains name (rs "brigadier") ||
  strContains name (rs "datafixerupper") ||
  strContains name (rs "authlib") ||
  strContains name (rs "text2speech") ||
  strContains name (rs "jna") ||
  strContains name (rs "oshi") ||
  strContains name (rs "caffeine") ||
  strContains name (rs "lz4") ||
  strContains name (rs "antlr") ||
  strContains name (rs "maven") ||
  strContains name (rs "plexus") ||
  strContains name (rs "night-config") ||
  strContains name (rs "javaparser")

/-- The classification of one library by Maven name: the exclusion list is
tested first and forces `Classpath`; otherwise the module patterns route to
`ModulePath`; everything else is `Classpath` (forge.rs lines 250–339). -/
def classify (name : RStr) : LibClass :=
  if forgeExplicitlyExcluded name then .Classpath
  else if forgeIsModule name then .ModulePath
  else .Classpath

/-- Claim C1: the Forge installer's library classification is a total,
deterministic function of the Maven name (being a Lean function, `classify`
assigns every name exactly one of the two destinations); whenever the
explicit exclusion list fires it overrides every module-path pattern and
forces `Classpath`; classifying
`["net.minecraftforge:fmlloader:1.20.1-47.1.0", "com.google.guava:guava:31.1",
"net.sf.jopt-simple:jopt-simple:5.0.4", "commons-codec:commons-codec:1.15"]`
puts the first three on the module path and `commons-codec` on the
classpath; and `"com.google.guava:failureaccess:1.0"` is classified
`Classpath` even though it matches the `"guava"` module-path pattern. -/
theorem C1_classification_total_exclusion_wins :
    (∀ name : RStr, classify name = .ModulePath ∨ classify name = .Classpath) ∧
    (∀ name : RStr, forgeExplicitlyExcluded name = true → classify name = .Classpath) ∧
    [rs "net.minecraftforge:fmlloader:1.20.1-47.1.0",
     rs "com.google.guava:guava:31.1",
     rs "net.sf.jopt-simple:jopt-simple:5.0.4",
     rs "commons-codec:commons-codec:1.15"].map classify =
      [.ModulePath, .ModulePath, .ModulePath, .Classpath] ∧
    classify (rs "com.google.guava:failureaccess:1.0") = .Classpath ∧
    forgeIsModule (rs "com.google.guava:failureaccess:1.0") = true := by
  refine ⟨?_, ?_, ?_, ?_, ?_⟩
  · intro name
    by_cases he : forgeExplicitlyExcluded name
    · right; simp [classify, he]
    · by_cases hm : forgeIsModule name
      · left; simp [classify, he, hm]
      · right; simp [classify, he, hm]
  · intro name h
    simp [classify, h]
  · decide
  · decide
  · decide

/-- Witness for `C1_classification_total_exclusion_wins`: the exclusion
hypothesis is discharged at the concrete name `commons-codec:commons-codec:1.15`. -/
theorem C1_witness :
    forgeExplicitlyExcluded (rs "commons-codec:commons-codec:1.15") = true ∧
    classify (rs "commons-codec:commons-codec:1.15") = .Classpath :=
  ⟨by decide,
   C1_classification_total_exclusion_wins.2.1 (rs "commons-codec:commons-codec:1.15")
     (by decide)⟩
